import Mathlib

/-!
Verification of the ctf-test-gen repository.

This file gives a shallow embedding in Lean 4 of the two Python scripts of
the repository, src/ctf-challenge-gen/generate_binaries.py (the CTF
challenge generator) and src/ctf-binary-gen/generate_docker_compose.py (the
compose packager), and proves the specification claims about them.

Modelling conventions:
* a Python str is a list of characters (code points);
* a Python bytes object is a list of naturals, each below 256;
* the pseudo-random generator is an explicit stream of draws, a list of
  naturals consumed from the front (an empty stream yields draw 0, which
  stays inside every requested range);
* external effects (the docker build subprocess, the filesystem) are
  explicit oracles or state records threaded through the functions.
-/

namespace CtfGen

/-- Model of Python str.replace(old, new) (replace all occurrences, leftmost
first, non-overlapping): scan left to right; whenever the pattern is a prefix
of the remaining input, emit the replacement and skip the matched pattern,
otherwise keep one character and continue.  The interior match on the
pattern only serves termination; every pattern used by the scripts is a
non-empty literal. -/
def listReplace (p r : List Char) (s : List Char) : List Char :=
  match s with
  | [] => []
  | c :: rest =>
    if p.isPrefixOf (c :: rest) then
      match p with
      | [] => c :: listReplace p r rest
      | _ :: pt => r ++ listReplace p r (rest.drop pt.length)
    else c :: listReplace p r rest
termination_by s.length
decreasing_by
  all_goals simp only [List.length_cons, List.length_drop]
  all_goals omega

/-- Model of the Python substring test (the `in` operator on str). -/
def containsSub (p s : List Char) : Bool := decide (p <:+: s)

theorem listReplace_nil (p r : List Char) : listReplace p r [] = [] := by
  rw [listReplace.eq_def]

theorem listReplace_match (ph : Char) (pt r : List Char) (c : Char) (rest : List Char)
    (h : (ph :: pt).isPrefixOf (c :: rest)) :
    listReplace (ph :: pt) r (c :: rest) = r ++ listReplace (ph :: pt) r (rest.drop pt.length) := by
  rw [listReplace.eq_def]
  simp [h]

theorem listReplace_nomatch (p r : List Char) (c : Char) (rest : List Char)
    (h : ¬ p.isPrefixOf (c :: rest)) :
    listReplace p r (c :: rest) = c :: listReplace p r rest := by
  rw [listReplace.eq_def]
  simp [h]

/-- Positioning an occurrence inside an append: an infix of a ++ b lies in a,
lies in b, or crosses the border, a non-trivial chunk of it ending a and the
rest starting b. -/
theorem infix_append_split (p a b : List Char) (h : p <:+: a ++ b) :
    p <:+: a ∨ p <:+: b ∨
      ∃ k, 0 < k ∧ k < p.length ∧ p.take k <:+ a ∧ p.drop k <+: b := by
  induction a with
  | nil => exact Or.inr (Or.inl (by simpa using h))
  | cons c a' ih =>
    rw [List.cons_append, List.infix_cons_iff] at h
    rcases h with h | h
    · rw [← List.cons_append] at h
      by_cases hle : p.length ≤ (c :: a').length
      · exact Or.inl
          (List.prefix_of_prefix_length_le h (List.prefix_append (c :: a') b) hle).isInfix
      · push_neg at hle
        have hpa : (c :: a') <+: p :=
          List.prefix_of_prefix_length_le (List.prefix_append (c :: a') b) h (Nat.le_of_lt hle)
        obtain ⟨t, ht⟩ := hpa
        right; right
        refine ⟨(c :: a').length, by simp, hle, ?_, ?_⟩
        · rw [← ht, List.take_left]
        · rw [← ht, List.drop_left]
          obtain ⟨u, hu⟩ := h
          rw [← ht, List.append_assoc] at hu
          exact ⟨u, List.append_cancel_left hu⟩
    · rcases ih h with h1 | h1 | ⟨k, hk0, hkl, hka, hkb⟩
      · exact Or.inl (List.infix_cons h1)
      · exact Or.inr (Or.inl h1)
      · exact Or.inr (Or.inr ⟨k, hk0, hkl, hka.trans (List.suffix_cons c a'), hkb⟩)

/-- If the replacement string starts with a character that does not occur in
q, then q can only be a prefix of the output of listReplace if it already was
a prefix of the input. -/
theorem prefix_reflect (p r : List Char) (hr : r ≠ []) :
    ∀ s q : List Char, r.head hr ∉ q → q <+: listReplace p r s → q <+: s := by
  intro s
  induction s using listReplace.induct p r with
  | case1 =>
    intro q _ hq
    simpa [listReplace_nil] using hq
  | case2 c rest hpre hpnil ih =>
    subst hpnil
    intro q hhd hq
    rw [listReplace.eq_def] at hq
    simp only [List.isPrefixOf, if_true] at hq
    match q, hq with
    | [], _ => exact List.nil_prefix
    | q0 :: q', hq =>
      rw [List.cons_prefix_cons] at hq ⊢
      exact ⟨hq.1, ih q' (fun hmem => hhd (List.mem_cons_of_mem _ hmem)) hq.2⟩
  | case3 c rest hpre ph pt hp ih =>
    subst hp
    intro q hhd hq
    rw [listReplace_match ph pt r c rest hpre] at hq
    match q, hq with
    | [], _ => exact List.nil_prefix
    | q0 :: q', hq =>
      exfalso
      match r, hr with
      | r0 :: r', _ =>
        rw [List.cons_append, List.cons_prefix_cons] at hq
        exact hhd (by simp [hq.1])
  | case4 c rest hpre ih =>
    intro q hhd hq
    rw [listReplace_nomatch p r c rest hpre] at hq
    match q, hq with
    | [], _ => exact List.nil_prefix
    | q0 :: q', hq =>
      rw [List.cons_prefix_cons] at hq ⊢
      exact ⟨hq.1, ih q' (fun hmem => hhd (List.mem_cons_of_mem _ hmem)) hq.2⟩

/-- If no shift of the pattern is compatible with q (at every offset inside
q, neither is the pattern a prefix of the shifted q nor vice versa), then a
prefix q of the input stays a prefix of the output of listReplace. -/
theorem prefix_preserved (p r : List Char) (q : List Char)
    (hcompat : ∀ j, j < q.length → ¬ p <+: q.drop j ∧ ¬ q.drop j <+: p) :
    ∀ s : List Char, q <+: s → q <+: listReplace p r s := by
  induction q with
  | nil =>
    intro s _
    exact List.nil_prefix
  | cons q0 q' ih =>
    intro s hq
    match s, hq with
    | q0s :: rest, hq =>
      have hc : q0 = q0s := (List.cons_prefix_cons.mp hq).1
      have hq' : q' <+: rest := (List.cons_prefix_cons.mp hq).2
      by_cases hpre : p.isPrefixOf (q0s :: rest)
      · exfalso
        have hp : p <+: q0s :: rest := List.isPrefixOf_iff_prefix.mp hpre
        by_cases hlen : p.length ≤ (q0 :: q').length
        · exact (hcompat 0 (by simp)).1
            (by simpa using List.prefix_of_prefix_length_le hp hq hlen)
        · push_neg at hlen
          exact (hcompat 0 (by simp)).2
            (by simpa using List.prefix_of_prefix_length_le hq hp (Nat.le_of_lt hlen))
      · rw [listReplace_nomatch p r q0s rest hpre, List.cons_prefix_cons]
        exact ⟨hc, ih (fun j hj => by simpa using hcompat (j + 1) (by simpa using hj)) rest hq'⟩

/-- An occurrence of q in the input survives listReplace provided q is
incompatible with every shift of the pattern: no non-empty suffix of the
pattern aligns with q and no non-trivial suffix of q aligns with the
pattern, in the sense of the two prefix conditions below. -/
theorem infix_preserved (p r : List Char) (q : List Char) (hp0 : p ≠ []) (hq0 : q ≠ [])
    (hL : ∀ i, i < p.length → ¬ q <+: p.drop i ∧ ¬ p.drop i <+: q)
    (hR : ∀ j, 0 < j → j < q.length → ¬ p <+: q.drop j ∧ ¬ q.drop j <+: p) :
    ∀ s : List Char, q <:+: s → q <:+: listReplace p r s := by
  intro s
  induction s using listReplace.induct p r with
  | case1 =>
    intro hq
    simpa [listReplace_nil] using hq
  | case2 c rest hpre hpnil ih =>
    exact absurd hpnil hp0
  | case3 c rest hpre ph pt hp ih =>
    subst hp
    intro hq
    rw [listReplace_match ph pt r c rest hpre]
    obtain ⟨u, v, huv⟩ := hq
    have hqd : q <+: (c :: rest).drop u.length := by
      rw [← huv, List.append_assoc, List.drop_left]
      exact List.prefix_append q v
    have hpp : (ph :: pt) <+: c :: rest := List.isPrefixOf_iff_prefix.mp hpre
    by_cases hcase : (ph :: pt).length ≤ u.length
    · -- the occurrence lies entirely inside the part after the match
      have hdd : (c :: rest).drop u.length <:+ (c :: rest).drop (ph :: pt).length := by
        have h2 := List.drop_drop (u.length - (ph :: pt).length) (ph :: pt).length (c :: rest)
        rw [Nat.add_sub_cancel' hcase] at h2
        rw [← h2]
        exact List.drop_suffix _ _
      have hrec := ih (by simpa using List.IsInfix.trans hqd.isInfix hdd.isInfix)
      exact List.IsInfix.trans hrec ((List.suffix_append r _).isInfix)
    · -- the occurrence would overlap the matched pattern: impossible
      exfalso
      push_neg at hcase
      obtain ⟨t, ht⟩ := hpp
      have hsplit : (c :: rest).drop u.length = (ph :: pt).drop u.length ++ t := by
        rw [← ht, List.drop_append_of_le_length (Nat.le_of_lt hcase)]
      rw [hsplit] at hqd
      by_cases hlq : q.length ≤ ((ph :: pt).drop u.length).length
      · have hqp : q <+: (ph :: pt).drop u.length :=
          List.prefix_of_prefix_length_le hqd
            (List.prefix_append ((ph :: pt).drop u.length) t) hlq
        exact (hL u.length hcase).1 hqp
      · push_neg at hlq
        have hsub : (ph :: pt).drop u.length <+: q :=
          List.prefix_of_prefix_length_le (List.prefix_append _ _) hqd (Nat.le_of_lt hlq)
        exact (hL u.length hcase).2 hsub
  | case4 c rest hpre ih =>
    intro hq
    rw [listReplace_nomatch p r c rest hpre]
    rcases List.infix_cons_iff.mp hq with hq | hq
    · match q, hq0, hq with
      | q0 :: q', _, hq =>
        have hc : q0 = c := (List.cons_prefix_cons.mp hq).1
        have hq' : q' <+: rest := (List.cons_prefix_cons.mp hq).2
        have hpq : q' <+: listReplace p r rest :=
          prefix_preserved p r q'
            (fun j hj => by simpa using hR (j + 1) (by simp) (by simpa using hj)) rest hq'
        exact (List.cons_prefix_cons.mpr ⟨hc, hpq⟩).isInfix
    · exact List.infix_cons (ih hq)

/-- Replacing a (possibly different) pattern cannot create a new occurrence
of p when p does not occur in the replacement r, no non-trivial prefix of p
is a suffix of r, and the head of r does not occur in the tail of p. -/
theorem replace_no_new (p' r p : List Char) (hp0 : p ≠ []) (hr0 : r ≠ [])
    (ha : ¬ p <:+: r)
    (hb : ∀ k, 0 < k → k < p.length → ¬ p.take k <:+ r)
    (hd : r.head hr0 ∉ p.tail) :
    ∀ s : List Char, ¬ p <:+: s → ¬ p <:+: listReplace p' r s := by
  intro s
  induction s using listReplace.induct p' r with
  | case1 =>
    intro hs hq
    exact hs (by simpa [listReplace_nil] using hq)
  | case2 c rest hpre hpnil ih =>
    subst hpnil
    intro hs hq
    rw [listReplace.eq_def] at hq
    simp only [List.isPrefixOf, if_true] at hq
    rcases List.infix_cons_iff.mp hq with hq | hq
    · match p, hp0, hq with
      | p0 :: ptl, _, hq =>
        have hc : p0 = c := (List.cons_prefix_cons.mp hq).1
        have htl : ptl <+: listReplace [] r rest := (List.cons_prefix_cons.mp hq).2
        have : ptl <+: rest := prefix_reflect [] r hr0 rest ptl hd htl
        exact hs (List.IsPrefix.isInfix (List.cons_prefix_cons.mpr ⟨hc, this⟩))
    · exact ih (fun hin => hs (List.infix_cons hin)) hq
  | case3 c rest hpre ph pt hp ih =>
    subst hp
    intro hs hq
    rw [listReplace_match ph pt r c rest hpre] at hq
    rcases infix_append_split p r _ hq with hq | hq | ⟨k, hk0, hkl, hka, _⟩
    · exact ha hq
    · have hsd : ¬ p <:+: rest.drop pt.length := fun hin =>
        hs (List.IsInfix.trans hin
          (((List.drop_suffix pt.length rest).trans (List.suffix_cons c rest)).isInfix))
      exact ih hsd hq
    · exact hb k hk0 hkl hka
  | case4 c rest hpre ih =>
    intro hs hq
    rw [listReplace_nomatch p' r c rest hpre] at hq
    rcases List.infix_cons_iff.mp hq with hq | hq
    · match p, hp0, hq with
      | p0 :: ptl, _, hq =>
        have hc : p0 = c := (List.cons_prefix_cons.mp hq).1
        have htl : ptl <+: listReplace p' r rest := (List.cons_prefix_cons.mp hq).2
        have : ptl <+: rest := prefix_reflect p' r hr0 rest ptl hd htl
        exact hs (List.IsPrefix.isInfix (List.cons_prefix_cons.mpr ⟨hc, this⟩))
    · exact ih (fun hin => hs (List.infix_cons hin)) hq

/-- Replacing every occurrence of p by r leaves no occurrence of p at all,
provided p does not occur in r, no non-trivial prefix of p is a suffix of r,
and the head of r does not occur in the tail of p. -/
theorem replace_self_none (p r : List Char) (hp0 : p ≠ []) (hr0 : r ≠ [])
    (ha : ¬ p <:+: r)
    (hb : ∀ k, 0 < k → k < p.length → ¬ p.take k <:+ r)
    (hd : r.head hr0 ∉ p.tail) :
    ∀ s : List Char, ¬ p <:+: listReplace p r s := by
  intro s
  induction s using listReplace.induct p r with
  | case1 =>
    intro hq
    rw [listReplace_nil] at hq
    have := List.eq_nil_of_infix_nil hq
    exact hp0 this
  | case2 c rest hpre hpnil ih =>
    exact absurd hpnil hp0
  | case3 c rest hpre ph pt hp ih =>
    subst hp
    intro hq
    rw [listReplace_match ph pt r c rest hpre] at hq
    rcases infix_append_split (ph :: pt) r _ hq with hq | hq | ⟨k, hk0, hkl, hka, _⟩
    · exact ha hq
    · exact ih hq
    · exact hb k hk0 hkl hka
  | case4 c rest hpre ih =>
    intro hq
    rw [listReplace_nomatch p r c rest hpre] at hq
    rcases List.infix_cons_iff.mp hq with hq | hq
    · match p, hp0, hq, hpre with
      | p0 :: ptl, _, hq, hpre =>
        have hc : p0 = c := (List.cons_prefix_cons.mp hq).1
        have htl : ptl <+: listReplace (p0 :: ptl) r rest := (List.cons_prefix_cons.mp hq).2
        have : ptl <+: rest := prefix_reflect (p0 :: ptl) r hr0 rest ptl hd htl
        exact hpre (List.isPrefixOf_iff_prefix.mpr (List.cons_prefix_cons.mpr ⟨hc, this⟩))
    · exact ih hq

/-- If the pattern occurs in the input then the replacement occurs in the
output of listReplace. -/
theorem replace_introduces (p r : List Char) (hp0 : p ≠ []) :
    ∀ s : List Char, p <:+: s → r <:+: listReplace p r s := by
  intro s
  induction s using listReplace.induct p r with
  | case1 =>
    intro hq
    exact absurd (List.eq_nil_of_infix_nil hq) hp0
  | case2 c rest hpre hpnil ih =>
    exact absurd hpnil hp0
  | case3 c rest hpre ph pt hp ih =>
    subst hp
    intro _
    rw [listReplace_match ph pt r c rest hpre]
    exact (List.prefix_append r _).isInfix
  | case4 c rest hpre ih =>
    intro hq
    rw [listReplace_nomatch p r c rest hpre]
    rcases List.infix_cons_iff.mp hq with hq | hq
    · exact absurd (List.isPrefixOf_iff_prefix.mpr hq) hpre
    · exact List.infix_cons (ih hq)

/-! ## The random draw stream -/

/-- One draw from the random stream; an exhausted stream yields 0. -/
def drawNat (g : List Nat) : Nat × List Nat :=
  match g with
  | [] => (0, [])
  | x :: rest => (x, rest)

/-- Model of random.randint(lo, hi): a uniform integer with both endpoints
included; the draw is reduced into the requested range. -/
def randint (lo hi : Nat) (g : List Nat) : Nat × List Nat :=
  (lo + (drawNat g).1 % (hi + 1 - lo), (drawNat g).2)

/-- Model of random.choice over a non-empty list (the default d is only for
totality and is never reachable on a non-empty list). -/
def randChoice {α : Type} (l : List α) (d : α) (g : List Nat) : α × List Nat :=
  (l.getD ((drawNat g).1 % l.length) d, (drawNat g).2)

/-- Model of random.choices(pop, k=k): k independent uniform draws. -/
def randChoices (pop : List Char) (d : Char) : Nat → List Nat → List Char × List Nat
  | 0, g => ([], g)
  | k + 1, g =>
    let (c, g') := randChoice pop d g
    let (cs, g'') := randChoices pop d k g'
    (c :: cs, g'')

theorem randint_le (lo hi : Nat) (g : List Nat) (h : lo ≤ hi) :
    lo ≤ (randint lo hi g).1 ∧ (randint lo hi g).1 ≤ hi := by
  unfold randint
  refine ⟨Nat.le_add_right _ _, ?_⟩
  have : (drawNat g).1 % (hi + 1 - lo) < hi + 1 - lo := Nat.mod_lt _ (by omega)
  omega

theorem randChoices_length (pop : List Char) (d : Char) (k : Nat) (g : List Nat) :
    (randChoices pop d k g).1.length = k := by
  induction k generalizing g with
  | zero => rfl
  | succ n ih => simp [randChoices, ih]

theorem randChoices_mem (pop : List Char) (d : Char) (hpop : pop ≠ []) (k : Nat) (g : List Nat) :
    ∀ c ∈ (randChoices pop d k g).1, c ∈ pop := by
  induction k generalizing g with
  | zero => simp [randChoices]
  | succ n ih =>
    simp only [randChoices, List.mem_cons]
    intro c hc
    rcases hc with hc | hc
    · have hlt : (drawNat g).1 % pop.length < pop.length :=
        Nat.mod_lt _ (List.length_pos.mpr hpop)
      subst hc
      rw [randChoice]
      simp only
      rw [List.getD_eq_getElem pop d hlt]
      exact List.getElem_mem hlt
    · exact ih _ c hc

/-! ## The content generator (generate_binaries.py) -/

/-- string.ascii_lowercase + string.digits, the population gen_flag
draws from: the 26 lowercase letters followed by the 10 digits. -/
def alphabet : List Char :=
  (List.range 26).map (fun i => Char.ofNat (97 + i)) ++
    (List.range 10).map (fun d => Char.ofNat (48 + d))

/-- Model of gen_flag (generate_binaries.py line 56-57):
"flag\x7b" ++ 12 random alphanumerics ++ "\x7d". -/
def gen_flag (g : List Nat) : List Char × List Nat :=
  let (mid, g') := randChoices alphabet 'a' 12 g
  ('f' :: 'l' :: 'a' :: 'g' :: '{' :: (mid ++ ['}']), g')

/-- The decimal digits. -/
def digitChars : List Char := (List.range 10).map (fun d => Char.ofNat (48 + d))

/-- The lowercase hexadecimal digits: the decimal digits followed by the
first six lowercase letters. -/
def hexChars : List Char :=
  digitChars ++ (List.range 6).map (fun i => Char.ofNat (97 + i))

/-- Model of Python str(n) for a non-negative integer: decimal digits, no
sign, no leading zeros. -/
def natRepr (n : Nat) : List Char :=
  if h : n < 10 then [digitChars.getD n '0']
  else natRepr (n / 10) ++ [digitChars.getD (n % 10) '0']
termination_by n
decreasing_by
  exact Nat.div_lt_self (by omega) (by omega)

theorem natRepr_ne_nil (n : Nat) : natRepr n ≠ [] := by
  rw [natRepr.eq_def]
  split
  · simp
  · simp

theorem natRepr_mem (n : Nat) : ∀ c ∈ natRepr n, c ∈ digitChars := by
  induction n using natRepr.induct with
  | case1 n h =>
    rw [natRepr.eq_def, dif_pos h]
    intro c hc
    rw [List.mem_singleton] at hc
    subst hc
    by_cases hd : n < digitChars.length
    · rw [List.getD_eq_getElem digitChars '0' hd]
      exact List.getElem_mem hd
    · exfalso
      have hlen : digitChars.length = 10 := by simp [digitChars]
      omega
  | case2 n h ih =>
    rw [natRepr.eq_def, dif_neg h]
    intro c hc
    rcases List.mem_append.mp hc with hc | hc
    · exact ih c hc
    · rw [List.mem_singleton] at hc
      subst hc
      have hd : n % 10 < digitChars.length := by
        have := Nat.mod_lt n (show 0 < 10 by omega)
        simp [digitChars]
        omega
      rw [List.getD_eq_getElem digitChars '0' hd]
      exact List.getElem_mem hd

/-! ## UTF-8 and the \xNN escape rendering -/

/-- UTF-8 encoding of one code point (as in Python str.encode). -/
def utf8EncodeChar (c : Nat) : List Nat :=
  if c < 0x80 then [c]
  else if c < 0x800 then [0xC0 + c / 64, 0x80 + c % 64]
  else if c < 0x10000 then [0xE0 + c / 4096, 0x80 + c / 64 % 64, 0x80 + c % 64]
  else [0xF0 + c / 262144, 0x80 + c / 4096 % 64, 0x80 + c / 64 % 64, 0x80 + c % 64]

/-- UTF-8 encoding of a string (Python s.encode("utf-8")). -/
def utf8Encode (s : List Char) : List Nat :=
  (s.map (fun c => utf8EncodeChar c.toNat)).flatten

/-- One step of UTF-8 decoding: reads the leading scalar (1 to 4 bytes,
rejecting continuation-byte errors, overlong forms, surrogates and
out-of-range values) and returns the code point with the remaining bytes. -/
def utf8DecodeStep (l : List Nat) : Option (Nat × List Nat) :=
  match l with
  | [] => none
  | b :: rest =>
    if b < 0x80 then some (b, rest)
    else if b < 0xC2 then none
    else if b < 0xE0 then
      match rest with
      | b2 :: rest2 =>
        if 0x80 ≤ b2 ∧ b2 < 0xC0 then some ((b - 0xC0) * 64 + (b2 - 0x80), rest2)
        else none
      | [] => none
    else if b < 0xF0 then
      match rest with
      | b2 :: b3 :: rest3 =>
        if (0x80 ≤ b2 ∧ b2 < 0xC0) ∧ (0x80 ≤ b3 ∧ b3 < 0xC0) then
          let cp := (b - 0xE0) * 4096 + (b2 - 0x80) * 64 + (b3 - 0x80)
          if 0x800 ≤ cp ∧ ¬ (0xD800 ≤ cp ∧ cp < 0xE000) then some (cp, rest3)
          else none
        else none
      | _ => none
    else if b < 0xF5 then
      match rest with
      | b2 :: b3 :: b4 :: rest4 =>
        if (0x80 ≤ b2 ∧ b2 < 0xC0) ∧ (0x80 ≤ b3 ∧ b3 < 0xC0) ∧ (0x80 ≤ b4 ∧ b4 < 0xC0) then
          let cp := (b - 0xF0) * 262144 + (b2 - 0x80) * 4096 + (b3 - 0x80) * 64 + (b4 - 0x80)
          if 0x10000 ≤ cp ∧ cp < 0x110000 then some (cp, rest4)
          else none
        else none
      | _ => none
    else none

/-- Fuel-bounded UTF-8 decoding loop; each step consumes at least one byte,
so fuel equal to the byte count always suffices. -/
def utf8DecodeAux : Nat → List Nat → Option (List Char)
  | _, [] => some []
  | 0, _ :: _ => none
  | fuel + 1, b :: rest =>
    match utf8DecodeStep (b :: rest) with
    | none => none
    | some (cp, rest2) =>
      match utf8DecodeAux fuel rest2 with
      | none => none
      | some cs => some (Char.ofNat cp :: cs)

/-- UTF-8 decoding of a byte list (Python bytes.decode("utf-8")): the
inverse reading of the encoding, rejecting malformed sequences. -/
def utf8Decode (l : List Nat) : Option (List Char) :=
  utf8DecodeAux l.length l

/-- One byte rendered as the 4-character C escape \xNN (two lowercase hex
digits); elements of a Python bytes object are below 256, for which this is
exactly the format string "\x5cx\x7b:02x\x7d". -/
def escByte (b : Nat) : List Char :=
  ['\\', 'x', hexChars.getD (b / 16) '0', hexChars.getD (b % 16) '0']

/-- Model of the generator expression in xor_encode_bytes line 63: every
byte rendered as \xNN, concatenated. -/
def escRender (bs : List Nat) : List Char := (bs.map escByte).flatten

/-- Parsing a \xNN escape sequence back into bytes (the reading a solver
or the compiled C program applies to the escaped literal). -/
def unescape : List Char → Option (List Nat)
  | [] => some []
  | '\\' :: 'x' :: h1 :: h2 :: rest =>
    match hexChars.indexOf? h1, hexChars.indexOf? h2, unescape rest with
    | some d1, some d2, some tl => some ((16 * d1 + d2) :: tl)
    | _, _, _ => none
  | _ => none

/-- Byte-wise XOR with a single repeating key byte. -/
def xorBytes (bs : List Nat) (key : Nat) : List Nat := bs.map (fun b => b ^^^ key)

/-- Model of xor_encode_bytes (generate_binaries.py lines 59-64): draw a key
in [1, 255], xor every UTF-8 byte of s with it, render as \xNN escapes.
Returns (escape string, key, remaining stream). -/
def xor_encode_bytes (s : List Char) (g : List Nat) : List Char × Nat × List Nat :=
  let (key, g') := randint 1 255 g
  (escRender (xorBytes (utf8Encode s) key), key, g')

/-! ## Placeholder substitution -/

/-- The placeholder tokens of the template language. -/
def pFLAG : List Char := ['{', 'F', 'L', 'A', 'G', '}']

/-- The {XOR_ENC} placeholder. -/
def pXOR : List Char := ['{', 'X', 'O', 'R', '_', 'E', 'N', 'C', '}']

/-- The {KEY} placeholder. -/
def pKEY : List Char := ['{', 'K', 'E', 'Y', '}']

/-- The {RANDOM_INT} placeholder. -/
def pRAND : List Char := ['{', 'R', 'A', 'N', 'D', 'O', 'M', '_', 'I', 'N', 'T', '}']

/-- Lines 70-74 of generate_binaries.py: if {XOR_ENC} occurs in the
flag-substituted program, substitute the escape rendering for {XOR_ENC}
and the decimal key for {KEY}. -/
def prepareStep2 (program flag : List Char) (g : List Nat) : List Char × List Nat :=
  if containsSub pXOR program then
    (listReplace pKEY (natRepr (xor_encode_bytes flag g).2.1)
       (listReplace pXOR (xor_encode_bytes flag g).1 program),
     (xor_encode_bytes flag g).2.2)
  else (program, g)

/-- Lines 76-79 of generate_binaries.py: if {RANDOM_INT} occurs, substitute
a random integer in [1, 10000]. -/
def prepareStep3 (pg : List Char × List Nat) : List Char × List Nat :=
  if containsSub pRAND pg.1 then
    (listReplace pRAND (natRepr (randint 1 10000 pg.2).1) pg.1, (randint 1 10000 pg.2).2)
  else pg

/-- Model of prepare_program_from_template (generate_binaries.py lines
66-81): substitute the flag for {FLAG}, then the {XOR_ENC}/{KEY} step, then
the {RANDOM_INT} step. -/
def prepare_program_from_template (template_text : List Char) (flag : List Char)
    (g : List Nat) : List Char × List Nat :=
  prepareStep3 (prepareStep2 (listReplace pFLAG flag template_text) flag g)

/-! ## Helper lemmas about heads, prefixes and character sets -/

theorem head_eq_of_prefix (a b : List Char) (h : a <+: b) (ha : a ≠ []) (hb : b ≠ []) :
    a.head ha = b.head hb := by
  cases a with
  | nil => exact absurd rfl ha
  | cons a0 a' =>
    cases b with
    | nil => exact absurd rfl hb
    | cons b0 b' => exact (List.cons_prefix_cons.mp h).1

/-- The flag string shape produced by gen_flag, with the 12-character middle
abstracted. -/
def flagTok (mid : List Char) : List Char :=
  'f' :: 'l' :: 'a' :: 'g' :: '{' :: (mid ++ ['}'])

theorem gen_flag_eq (g : List Nat) :
    (gen_flag g).1 = flagTok (randChoices alphabet 'a' 12 g).1 := rfl

theorem flagTok_ne_nil (mid : List Char) : flagTok mid ≠ [] := by
  simp [flagTok]

theorem flagTok_length (mid : List Char) (h : mid.length = 12) :
    (flagTok mid).length = 18 := by
  simp [flagTok, h]

theorem flagTok_getLast (mid : List Char) :
    (flagTok mid).getLast (flagTok_ne_nil mid) = '}' := by
  simp [flagTok]

theorem F_not_mem_flagTok (mid : List Char) (hA : ∀ c ∈ mid, c ∈ alphabet) :
    'F' ∉ flagTok mid := by
  intro h
  simp only [flagTok, List.mem_cons, List.mem_append, List.mem_singleton] at h
  rcases h with h | h | h | h | h | h | h
  all_goals first
  | exact absurd h (by decide)
  | exact absurd (hA _ h) (by decide)

/-- Replacing a pattern by a replacement whose characters are disjoint from
the characters of p can create no new occurrence of p. -/
theorem replace_no_new_disjoint (p' r p : List Char) (S : List Char)
    (hp0 : p ≠ []) (hr0 : r ≠ [])
    (hrS : ∀ c ∈ r, c ∈ S) (hdisj : ∀ c ∈ p, c ∉ S) :
    ∀ s : List Char, ¬ p <:+: s → ¬ p <:+: listReplace p' r s := by
  refine replace_no_new p' r p hp0 hr0 ?_ ?_ ?_
  · intro h
    exact hdisj (p.head hp0) (List.head_mem hp0) (hrS _ (h.subset (List.head_mem hp0)))
  · intro k hk0 hkl hs
    have hne : p.take k ≠ [] := by
      rw [Ne, List.take_eq_nil_iff]
      push_neg
      exact ⟨by omega, hp0⟩
    have hmem : (p.take k).head hne ∈ p := List.take_subset k p (List.head_mem hne)
    exact hdisj _ hmem (hrS _ (hs.subset (List.head_mem hne)))
  · intro hmem
    exact hdisj _ (List.tail_subset p hmem) (hrS _ (List.head_mem hr0))

/-- The characters that can appear in an escRender output. -/
def escSet : List Char := '\\' :: 'x' :: hexChars

theorem hexChars_getD_mem (i : Nat) : hexChars.getD i '0' ∈ hexChars := by
  by_cases h : i < hexChars.length
  · rw [List.getD_eq_getElem hexChars '0' h]
    exact List.getElem_mem h
  · rw [List.getD_eq_default _ _ (by omega)]
    decide

theorem escRender_mem (bs : List Nat) : ∀ c ∈ escRender bs, c ∈ escSet := by
  intro c hc
  simp only [escRender, List.mem_flatten, List.mem_map] at hc
  obtain ⟨l, ⟨b, _, hb⟩, hcl⟩ := hc
  subst hb
  simp only [escByte, List.mem_cons, List.not_mem_nil, or_false] at hcl
  rcases hcl with h | h | h | h
  · simp [h, escSet]
  · simp [h, escSet]
  · subst h
    simp only [escSet, List.mem_cons]
    exact Or.inr (Or.inr (hexChars_getD_mem _))
  · subst h
    simp only [escSet, List.mem_cons]
    exact Or.inr (Or.inr (hexChars_getD_mem _))

theorem escRender_ne_nil (bs : List Nat) (h : bs ≠ []) : escRender bs ≠ [] := by
  cases bs with
  | nil => exact absurd rfl h
  | cons b tl => simp [escRender, escByte]

/-- After substituting the flag for every occurrence of the {FLAG}
placeholder, no occurrence of {FLAG} remains. -/
theorem flag_no_pflag (mid : List Char) (hA : ∀ c ∈ mid, c ∈ alphabet) :
    ∀ s : List Char, ¬ pFLAG <:+: listReplace pFLAG (flagTok mid) s := by
  refine replace_self_none pFLAG (flagTok mid) (by decide) (flagTok_ne_nil mid) ?_ ?_ ?_
  · intro h
    exact F_not_mem_flagTok mid hA (h.subset (by decide))
  · intro k hk0 hkl hs
    have hne : pFLAG.take k ≠ [] := by
      rw [Ne, List.take_eq_nil_iff]
      push_neg
      exact ⟨by omega, by decide⟩
    have hlast := hs.getLast hne
    rw [flagTok_getLast mid] at hlast
    have hklt : k < 6 := by simpa [pFLAG] using hkl
    interval_cases k
    all_goals simp [pFLAG] at hlast
  · intro h
    simp only [flagTok, List.head_cons] at h
    exact absurd h (by decide)

/-- The {XOR_ENC} placeholder survives the substitution of the flag for
{FLAG} (no overlap between the two tokens is possible). -/
theorem pXOR_survives (r : List Char) :
    ∀ s : List Char, pXOR <:+: s → pXOR <:+: listReplace pFLAG r s := by
  refine infix_preserved pFLAG r pXOR (by decide) (by decide) ?_ ?_
  · intro i hi
    simp only [pFLAG, List.length_cons, List.length_nil] at hi
    interval_cases i <;> exact ⟨by decide, by decide⟩
  · intro j hj0 hjl
    simp only [pXOR, List.length_cons, List.length_nil] at hjl
    interval_cases j <;> exact ⟨by decide, by decide⟩

/-- An occurrence of the flag token flagTok mid survives the replacement of
any placeholder-shaped pattern (an opening brace, then a character that is
not alphanumeric, then fewer than 12 further characters, no lowercase f
anywhere): no overlap with the token is possible. -/
theorem flagTok_preserved (p1 : Char) (prest : List Char) (r mid : List Char)
    (hmidlen : mid.length = 12) (hA : ∀ c ∈ mid, c ∈ alphabet)
    (hf : 'f' ∉ ('{' :: p1 :: prest)) (hp1 : p1 ∉ alphabet) (hplen : prest.length < 12) :
    ∀ s : List Char, flagTok mid <:+: s →
      flagTok mid <:+: listReplace ('{' :: p1 :: prest) r s := by
  have hq0 : flagTok mid ≠ [] := flagTok_ne_nil mid
  have hqlen : (flagTok mid).length = 18 := flagTok_length mid hmidlen
  refine infix_preserved _ r _ (by simp) hq0 ?_ ?_
  · intro i hi
    simp only [List.length_cons] at hi
    constructor
    · intro h
      have hle := h.length_le
      rw [hqlen, List.length_drop] at hle
      simp only [List.length_cons] at hle
      omega
    · intro h
      have hdne : ('{' :: p1 :: prest).drop i ≠ [] := by
        rw [Ne, List.drop_eq_nil_iff]
        simp only [List.length_cons]
        omega
      have hhd := head_eq_of_prefix _ _ h hdne hq0
      have hmem : (('{' :: p1 :: prest).drop i).head hdne ∈ ('{' :: p1 :: prest) :=
        List.drop_subset i _ (List.head_mem hdne)
      rw [hhd] at hmem
      have : (flagTok mid).head hq0 = 'f' := by simp [flagTok]
      rw [this] at hmem
      exact hf hmem
  · intro j hj0 hj18'
    have hj18 : j < 18 := by rwa [hqlen] at hj18'
    have hdne : (flagTok mid).drop j ≠ [] := by
      rw [Ne, List.drop_eq_nil_iff]
      omega
    by_cases hj4 : j = 4
    · subst hj4
      have hdrop : (flagTok mid).drop 4 = '{' :: (mid ++ ['}']) := by simp [flagTok]
      constructor
      · intro h
        rw [hdrop] at h
        match mid, hmidlen, hA, h with
        | m0 :: mrest, _, hA, h =>
          have h2 := (List.cons_prefix_cons.mp h).2
          rw [List.cons_append] at h2
          have h3 := (List.cons_prefix_cons.mp h2).1
          exact hp1 (h3 ▸ hA m0 (by simp))
      · intro h
        have hle := h.length_le
        rw [hdrop] at hle
        simp only [List.length_cons, List.length_append, List.length_singleton, hmidlen] at hle
        omega
    · have hhead_ne : ((flagTok mid).drop j).head hdne ≠ '{' := by
        by_cases hj5 : 5 ≤ j
        · have hdd := List.drop_drop (j - 5) 5 (flagTok mid)
          have h55 : 5 + (j - 5) = j := by omega
          rw [h55] at hdd
          have hdrop5 : (flagTok mid).drop 5 = mid ++ ['}'] := by simp [flagTok]
          rw [hdrop5] at hdd
          have hdne2 : (mid ++ ['}']).drop (j - 5) ≠ [] := by rw [hdd]; exact hdne
          have hmem : ((flagTok mid).drop j).head hdne ∈ mid ++ ['}'] := by
            have e1 : ((flagTok mid).drop j).head? =
                some (((flagTok mid).drop j).head hdne) := List.head?_eq_head hdne
            have e2 : ((mid ++ ['}']).drop (j - 5)).head? =
                some (((mid ++ ['}']).drop (j - 5)).head hdne2) := List.head?_eq_head hdne2
            have e3 : ((mid ++ ['}']).drop (j - 5)).head? =
                ((flagTok mid).drop j).head? := by rw [hdd]
            have e4 : ((flagTok mid).drop j).head hdne =
                ((mid ++ ['}']).drop (j - 5)).head hdne2 :=
              Option.some_inj.mp ((e1.symm.trans e3.symm).trans e2)
            rw [e4]
            exact List.drop_subset _ _ (List.head_mem hdne2)
          rcases List.mem_append.mp hmem with hm | hm
          · intro hcontra
            exact absurd (hcontra ▸ hA _ hm) (by decide)
          · rw [List.mem_singleton] at hm
            rw [hm]
            decide
        · have hj3 : j = 1 ∨ j = 2 ∨ j = 3 := by omega
          rcases hj3 with hj | hj | hj
          all_goals subst hj
          all_goals simp [flagTok]
      constructor
      · intro h
        have hhd := head_eq_of_prefix _ _ h (by simp) hdne
        simp only [List.head_cons] at hhd
        exact hhead_ne hhd.symm
      · intro h
        have hhd := head_eq_of_prefix _ _ h hdne (by simp)
        simp only [List.head_cons] at hhd
        exact hhead_ne hhd

/-! ## Round trips: escapes, XOR, UTF-8 -/

theorem hexChars_indexOf_getD :
    ∀ i, i < 16 → hexChars.indexOf? (hexChars.getD i '0') = some i := by decide

/-- Parsing the rendered \xNN escapes recovers exactly the byte list. -/
theorem unescape_escRender : ∀ bs : List Nat, (∀ b ∈ bs, b < 256) →
    unescape (escRender bs) = some bs := by
  intro bs
  induction bs with
  | nil => intro _; rfl
  | cons b tl ih =>
    intro hb
    have hb256 : b < 256 := hb b (by simp)
    have h1 : b / 16 < 16 := by omega
    have h2 : b % 16 < 16 := by omega
    have e : escRender (b :: tl) = '\\' :: 'x' :: hexChars.getD (b / 16) '0' ::
        hexChars.getD (b % 16) '0' :: escRender tl := by
      simp [escRender, escByte]
    rw [e]
    rw [show unescape ('\\' :: 'x' :: hexChars.getD (b / 16) '0' ::
        hexChars.getD (b % 16) '0' :: escRender tl) =
        (match hexChars.indexOf? (hexChars.getD (b / 16) '0'),
              hexChars.indexOf? (hexChars.getD (b % 16) '0'),
              unescape (escRender tl) with
        | some d1, some d2, some tl2 => some ((16 * d1 + d2) :: tl2)
        | _, _, _ => none) from rfl]
    rw [hexChars_indexOf_getD _ h1, hexChars_indexOf_getD _ h2,
        ih (fun x hx => hb x (by simp [hx]))]
    simp only [Option.some_inj, List.cons.injEq]
    exact ⟨by omega, trivial⟩

/-- XOR with the same key twice is the identity. -/
theorem xorBytes_xorBytes (bs : List Nat) (key : Nat) :
    xorBytes (xorBytes bs key) key = bs := by
  simp only [xorBytes, List.map_map]
  have : ((fun b => b ^^^ key) ∘ fun b => b ^^^ key) = id := by
    funext b
    simp [Function.comp, Nat.xor_cancel_right]
  rw [this, List.map_id]

/-- On ASCII strings, UTF-8 encoding is just the code points. -/
theorem utf8Encode_ascii : ∀ s : List Char, (∀ c ∈ s, c.toNat < 128) →
    utf8Encode s = s.map Char.toNat := by
  intro s
  induction s with
  | nil => intro _; rfl
  | cons c tl ih =>
    intro h
    have hc : c.toNat < 128 := h c (by simp)
    have : utf8EncodeChar c.toNat = [c.toNat] := by
      rw [utf8EncodeChar, if_pos (by omega)]
    simp only [utf8Encode, List.map_cons, List.flatten_cons, this, List.cons_append,
      List.nil_append]
    rw [← utf8Encode]
    rw [ih (fun x hx => h x (by simp [hx]))]

theorem utf8DecodeAux_ascii : ∀ s : List Char, (∀ c ∈ s, c.toNat < 128) →
    ∀ fuel, s.length ≤ fuel → utf8DecodeAux fuel (s.map Char.toNat) = some s := by
  intro s
  induction s with
  | nil =>
    intro _ fuel _
    cases fuel <;> rfl
  | cons c tl ih =>
    intro h fuel hf
    match fuel, hf with
    | fuel + 1, hf2 =>
      have hc : c.toNat < 128 := h c (by simp)
      have hstep : utf8DecodeStep (c.toNat :: tl.map Char.toNat) =
          some (c.toNat, tl.map Char.toNat) := by
        rw [utf8DecodeStep.eq_def]
        simp only
        rw [if_pos (show c.toNat < 0x80 by omega)]
      have hrec := ih (fun x hx => h x (by simp [hx])) fuel
        (by simp only [List.length_cons] at hf2; omega)
      rw [List.map_cons, utf8DecodeAux]
      simp only [hstep, hrec]
      simp [Char.ofNat_toNat]

/-- UTF-8 decoding undoes UTF-8 encoding on ASCII strings. -/
theorem utf8Decode_encode_ascii (s : List Char) (h : ∀ c ∈ s, c.toNat < 128) :
    utf8Decode (utf8Encode s) = some s := by
  rw [utf8Encode_ascii s h, utf8Decode]
  exact utf8DecodeAux_ascii s h _ (by simp)

theorem alphabet_ascii : ∀ c ∈ alphabet, c.toNat < 128 := by decide

theorem flagTok_ascii (mid : List Char) (hA : ∀ c ∈ mid, c ∈ alphabet) :
    ∀ c ∈ flagTok mid, c.toNat < 128 := by
  intro c hc
  simp only [flagTok, List.mem_cons, List.mem_append, List.mem_singleton,
    List.not_mem_nil, or_false] at hc
  rcases hc with h | h | h | h | h | h | h
  all_goals first
  | (subst h; decide)
  | exact alphabet_ascii c (hA c h)

theorem utf8EncodeChar_ne_nil (c : Nat) : utf8EncodeChar c ≠ [] := by
  rw [utf8EncodeChar]
  split
  · simp
  · split
    · simp
    · split
      · simp
      · simp

theorem utf8Encode_ne_nil (s : List Char) (h : s ≠ []) : utf8Encode s ≠ [] := by
  cases s with
  | nil => exact absurd rfl h
  | cons c tl =>
    simp only [utf8Encode, List.map_cons, List.flatten_cons, Ne, List.append_eq_nil]
    intro hcon
    exact utf8EncodeChar_ne_nil c.toNat hcon.1

theorem xorBytes_ne_nil (bs : List Nat) (key : Nat) (h : bs ≠ []) :
    xorBytes bs key ≠ [] := by
  simpa [xorBytes] using h

/-- The flag token survives the {XOR_ENC} substitution. -/
theorem flagTok_survives_pXOR (r mid : List Char)
    (hmidlen : mid.length = 12) (hA : ∀ c ∈ mid, c ∈ alphabet) :
    ∀ s : List Char, flagTok mid <:+: s → flagTok mid <:+: listReplace pXOR r s :=
  flagTok_preserved 'X' ['O', 'R', '_', 'E', 'N', 'C', '}'] r mid hmidlen hA
    (by decide) (by decide) (by decide)

/-- The flag token survives the {KEY} substitution. -/
theorem flagTok_survives_pKEY (r mid : List Char)
    (hmidlen : mid.length = 12) (hA : ∀ c ∈ mid, c ∈ alphabet) :
    ∀ s : List Char, flagTok mid <:+: s → flagTok mid <:+: listReplace pKEY r s :=
  flagTok_preserved 'K' ['E', 'Y', '}'] r mid hmidlen hA
    (by decide) (by decide) (by decide)

/-- The flag token survives the {RANDOM_INT} substitution. -/
theorem flagTok_survives_pRAND (r mid : List Char)
    (hmidlen : mid.length = 12) (hA : ∀ c ∈ mid, c ∈ alphabet) :
    ∀ s : List Char, flagTok mid <:+: s → flagTok mid <:+: listReplace pRAND r s :=
  flagTok_preserved 'R' ['A', 'N', 'D', 'O', 'M', '_', 'I', 'N', 'T', '}'] r mid hmidlen hA
    (by decide) (by decide) (by decide)

/-- After the flag substitution and through every later placeholder
substitution, the generated program keeps an occurrence of the flag token
and keeps no occurrence of {FLAG}. -/
theorem prepare_props (tpl mid : List Char) (g1 : List Nat)
    (hmidlen : mid.length = 12) (hA : ∀ c ∈ mid, c ∈ alphabet) :
    (pFLAG <:+: tpl →
      flagTok mid <:+: (prepare_program_from_template tpl (flagTok mid) g1).1) ∧
    ¬ pFLAG <:+: (prepare_program_from_template tpl (flagTok mid) g1).1 := by
  have hesc_ne : ∀ key : Nat, escRender (xorBytes (utf8Encode (flagTok mid)) key) ≠ [] :=
    fun key => escRender_ne_nil _
      (xorBytes_ne_nil _ _ (utf8Encode_ne_nil _ (flagTok_ne_nil mid)))
  have hdisjE : ∀ c ∈ pFLAG, c ∉ escSet := by decide
  have hdisjD : ∀ c ∈ pFLAG, c ∉ digitChars := by decide
  unfold prepare_program_from_template prepareStep2 prepareStep3
  set P1 := listReplace pFLAG (flagTok mid) tpl with hP1
  have hA1 : pFLAG <:+: tpl → flagTok mid <:+: P1 :=
    fun h => replace_introduces pFLAG (flagTok mid) (by decide) tpl h
  have hB1 : ¬ pFLAG <:+: P1 := flag_no_pflag mid hA tpl
  by_cases hx : containsSub pXOR P1
  · rw [if_pos hx]
    simp only
    set key := (xor_encode_bytes (flagTok mid) g1).2.1 with hkey
    set enc := (xor_encode_bytes (flagTok mid) g1).1 with henc
    have hencv : enc = escRender (xorBytes (utf8Encode (flagTok mid)) key) := rfl
    set P2 := listReplace pKEY (natRepr key)
      (listReplace pXOR enc P1) with hP2
    have hA2 : pFLAG <:+: tpl → flagTok mid <:+: P2 := fun h =>
      flagTok_survives_pKEY _ mid hmidlen hA _
        (flagTok_survives_pXOR _ mid hmidlen hA _ (hA1 h))
    have hB2 : ¬ pFLAG <:+: P2 := by
      refine replace_no_new_disjoint pKEY (natRepr key) pFLAG digitChars
        (by decide) (natRepr_ne_nil key) (natRepr_mem key) hdisjD _ ?_
      exact replace_no_new_disjoint pXOR enc pFLAG escSet
        (by decide) (hesc_ne key) (escRender_mem _) hdisjE _ hB1
    by_cases hrand : containsSub pRAND P2
    · rw [if_pos hrand]
      simp only
      constructor
      · intro h
        exact flagTok_survives_pRAND _ mid hmidlen hA _ (hA2 h)
      · exact replace_no_new_disjoint pRAND _ pFLAG digitChars
          (by decide) (natRepr_ne_nil _) (natRepr_mem _) hdisjD _ hB2
    · rw [if_neg hrand]
      exact ⟨hA2, hB2⟩
  · rw [if_neg hx]
    simp only
    by_cases hrand : containsSub pRAND P1
    · rw [if_pos hrand]
      simp only
      constructor
      · intro h
        exact flagTok_survives_pRAND _ mid hmidlen hA _ (hA1 h)
      · exact replace_no_new_disjoint pRAND _ pFLAG digitChars
          (by decide) (natRepr_ne_nil _) (natRepr_mem _) hdisjD _ hB1
    · rw [if_neg hrand]
      exact ⟨hA1, hB1⟩

/-! ## Claims C1 and C2 -/

/-- C1: for every template whose text contains {XOR_ENC} and every flag
produced in the same generation, the key substituted for {KEY} is an integer
in [1, 255], the text substituted for {XOR_ENC} is the \xNN-escape rendering
of the byte-wise XOR of the flag's UTF-8 bytes with that single repeating key
byte (and that substitution really takes place, the XOR branch being taken),
and decoding that escape sequence by XOR with the key and reading it as text
reproduces exactly the flag that replaced {FLAG} in that same generation. -/
theorem C1_xor_roundtrip (tpl : List Char) (g : List Nat) (hx : pXOR <:+: tpl) :
    1 ≤ (xor_encode_bytes (gen_flag g).1 (gen_flag g).2).2.1 ∧
    (xor_encode_bytes (gen_flag g).1 (gen_flag g).2).2.1 ≤ 255 ∧
    (xor_encode_bytes (gen_flag g).1 (gen_flag g).2).1 =
      escRender (xorBytes (utf8Encode (gen_flag g).1)
        (xor_encode_bytes (gen_flag g).1 (gen_flag g).2).2.1) ∧
    prepareStep2 (listReplace pFLAG (gen_flag g).1 tpl) (gen_flag g).1 (gen_flag g).2 =
      (listReplace pKEY (natRepr (xor_encode_bytes (gen_flag g).1 (gen_flag g).2).2.1)
         (listReplace pXOR (xor_encode_bytes (gen_flag g).1 (gen_flag g).2).1
           (listReplace pFLAG (gen_flag g).1 tpl)),
       (xor_encode_bytes (gen_flag g).1 (gen_flag g).2).2.2) ∧
    unescape (xor_encode_bytes (gen_flag g).1 (gen_flag g).2).1 =
      some (xorBytes (utf8Encode (gen_flag g).1)
        (xor_encode_bytes (gen_flag g).1 (gen_flag g).2).2.1) ∧
    xorBytes (xorBytes (utf8Encode (gen_flag g).1)
        (xor_encode_bytes (gen_flag g).1 (gen_flag g).2).2.1)
        (xor_encode_bytes (gen_flag g).1 (gen_flag g).2).2.1 =
      utf8Encode (gen_flag g).1 ∧
    utf8Decode (xorBytes (xorBytes (utf8Encode (gen_flag g).1)
        (xor_encode_bytes (gen_flag g).1 (gen_flag g).2).2.1)
        (xor_encode_bytes (gen_flag g).1 (gen_flag g).2).2.1) =
      some (gen_flag g).1 := by
  have hA : ∀ c ∈ (randChoices alphabet 'a' 12 g).1, c ∈ alphabet :=
    randChoices_mem alphabet 'a' (by decide) 12 g
  have hfl : (gen_flag g).1 = flagTok (randChoices alphabet 'a' 12 g).1 := gen_flag_eq g
  have hascii : ∀ c ∈ (gen_flag g).1, c.toNat < 128 := by
    rw [hfl]
    exact flagTok_ascii _ hA
  have hkeyv : (xor_encode_bytes (gen_flag g).1 (gen_flag g).2).2.1 =
      (randint 1 255 (gen_flag g).2).1 := rfl
  have hkey := randint_le 1 255 (gen_flag g).2 (by omega)
  have hkey256 : (xor_encode_bytes (gen_flag g).1 (gen_flag g).2).2.1 < 256 := by
    rw [hkeyv]
    omega
  have hbytes : ∀ b ∈ xorBytes (utf8Encode (gen_flag g).1)
      (xor_encode_bytes (gen_flag g).1 (gen_flag g).2).2.1, b < 256 := by
    intro b hb
    simp only [xorBytes, List.mem_map] at hb
    obtain ⟨x, hxmem, hxeq⟩ := hb
    rw [utf8Encode_ascii _ hascii, List.mem_map] at hxmem
    obtain ⟨c, hcmem, hceq⟩ := hxmem
    have hx128 : x < 128 := by
      rw [← hceq]
      exact hascii c hcmem
    subst hxeq
    have h256 : (256 : Nat) = 2 ^ 8 := by norm_num
    rw [h256]
    exact Nat.xor_lt_two_pow (by omega) (by omega)
  have hcontains : containsSub pXOR (listReplace pFLAG (gen_flag g).1 tpl) = true := by
    unfold containsSub
    rw [decide_eq_true_iff]
    exact pXOR_survives (gen_flag g).1 tpl hx
  refine ⟨by rw [hkeyv]; exact hkey.1, by rw [hkeyv]; exact hkey.2, rfl, ?_, ?_, ?_, ?_⟩
  · unfold prepareStep2
    rw [if_pos hcontains]
  · exact unescape_escRender _ hbytes
  · exact xorBytes_xorBytes _ _
  · rw [xorBytes_xorBytes]
    exact utf8Decode_encode_ascii _ hascii

/-- Witness for C1 at the concrete template "{XOR_ENC}" with an empty
random stream. -/
theorem C1_xor_roundtrip_witness :
    1 ≤ (xor_encode_bytes (gen_flag []).1 (gen_flag []).2).2.1 ∧
    (xor_encode_bytes (gen_flag []).1 (gen_flag []).2).2.1 ≤ 255 ∧
    (xor_encode_bytes (gen_flag []).1 (gen_flag []).2).1 =
      escRender (xorBytes (utf8Encode (gen_flag []).1)
        (xor_encode_bytes (gen_flag []).1 (gen_flag []).2).2.1) ∧
    prepareStep2 (listReplace pFLAG (gen_flag []).1 pXOR) (gen_flag []).1 (gen_flag []).2 =
      (listReplace pKEY (natRepr (xor_encode_bytes (gen_flag []).1 (gen_flag []).2).2.1)
         (listReplace pXOR (xor_encode_bytes (gen_flag []).1 (gen_flag []).2).1
           (listReplace pFLAG (gen_flag []).1 pXOR)),
       (xor_encode_bytes (gen_flag []).1 (gen_flag []).2).2.2) ∧
    unescape (xor_encode_bytes (gen_flag []).1 (gen_flag []).2).1 =
      some (xorBytes (utf8Encode (gen_flag []).1)
        (xor_encode_bytes (gen_flag []).1 (gen_flag []).2).2.1) ∧
    xorBytes (xorBytes (utf8Encode (gen_flag []).1)
        (xor_encode_bytes (gen_flag []).1 (gen_flag []).2).2.1)
        (xor_encode_bytes (gen_flag []).1 (gen_flag []).2).2.1 =
      utf8Encode (gen_flag []).1 ∧
    utf8Decode (xorBytes (xorBytes (utf8Encode (gen_flag []).1)
        (xor_encode_bytes (gen_flag []).1 (gen_flag []).2).2.1)
        (xor_encode_bytes (gen_flag []).1 (gen_flag []).2).2.1) =
      some (gen_flag []).1 :=
  C1_xor_roundtrip pXOR [] (by decide)

/-- C2: for every template whose text contains the literal substring {FLAG},
the source text produced by placeholder substitution contains a token of the
exact form flag\x7bc1..c12\x7d in which each of the 12 characters is a
lowercase ASCII letter or digit, and does not contain the literal substring
{FLAG}. -/
theorem C2_flag_token (tpl : List Char) (g : List Nat) (h : pFLAG <:+: tpl) :
    (∃ mid, mid.length = 12 ∧ (∀ c ∈ mid, c ∈ alphabet) ∧
      flagTok mid <:+:
        (prepare_program_from_template tpl (gen_flag g).1 (gen_flag g).2).1) ∧
    ¬ pFLAG <:+: (prepare_program_from_template tpl (gen_flag g).1 (gen_flag g).2).1 := by
  have hmid : (randChoices alphabet 'a' 12 g).1.length = 12 := randChoices_length _ _ _ _
  have hA : ∀ c ∈ (randChoices alphabet 'a' 12 g).1, c ∈ alphabet :=
    randChoices_mem alphabet 'a' (by decide) 12 g
  have hflag : (gen_flag g).1 = flagTok (randChoices alphabet 'a' 12 g).1 := gen_flag_eq g
  rw [hflag]
  have hp := prepare_props tpl (randChoices alphabet 'a' 12 g).1 (gen_flag g).2 hmid hA
  exact ⟨⟨_, hmid, hA, hp.1 h⟩, hp.2⟩

/-- Witness for C2 at the concrete template "{FLAG}" with an empty random
stream. -/
theorem C2_flag_token_witness :
    (∃ mid, mid.length = 12 ∧ (∀ c ∈ mid, c ∈ alphabet) ∧
      flagTok mid <:+:
        (prepare_program_from_template pFLAG (gen_flag []).1 (gen_flag []).2).1) ∧
    ¬ pFLAG <:+: (prepare_program_from_template pFLAG (gen_flag []).1 (gen_flag []).2).1 :=
  C2_flag_token pFLAG [] (by decide)

/-! ## The build orchestrator (build_one and the __main__ driver) -/

/-- os.urandom(n) modelled from the draw stream: n bytes. -/
def urandomBytes : Nat → List Nat → List Nat × List Nat
  | 0, g => ([], g)
  | n + 1, g =>
    ((drawNat g).1 % 256 :: (urandomBytes n (drawNat g).2).1, (urandomBytes n (drawNat g).2).2)

theorem urandomBytes_length (n : Nat) (g : List Nat) : (urandomBytes n g).1.length = n := by
  induction n generalizing g with
  | zero => rfl
  | succ k ih => simp [urandomBytes, ih]

/-- The optional sidecar metadata of a template, with the fields
load_metadata/build_one read (absent fields modelled as none). -/
structure MetaIn where
  cflags : Option (List (List Char))
  padMaxField : Option Int
  padField : Option Int
  difficulty : Option (List Char)

/-- DEFAULT_CFLAGS_CHOICES (generate_binaries.py lines 18-24). -/
def DEFAULT_CFLAGS_CHOICES : List (List Char) :=
  [['-', 'O', '0', ' ', '-', 'g'],
   ['-', 'O', '2'],
   ['-', 'O', 's'],
   ['-', 'O', '3'],
   ['-', 'O', '1', ' ', '-', 's']]

/-- meta.get("cflags", DEFAULT_CFLAGS_CHOICES), line 85. -/
def resolveCflags (m : MetaIn) : List (List Char) := m.cflags.getD DEFAULT_CFLAGS_CHOICES

/-- meta.get("pad_max", meta.get("pad", 1024)), line 86. -/
def resolvePadMax (m : MetaIn) : Int := m.padMaxField.getD (m.padField.getD 1024)

/-- meta.get("difficulty", "unknown"), line 87. -/
def resolveDifficulty (m : MetaIn) : List Char :=
  m.difficulty.getD ['u', 'n', 'k', 'n', 'o', 'w', 'n']

/-- One template of the template store: filename stem, full filename, body
text and (resolved-on-read) sidecar metadata. -/
structure Template where
  stem : List Char
  name : List Char
  text : List Char
  meta : MetaIn

/-- The outcome of the external docker build subprocess for one job: none
models a nonzero exit (subprocess.run with check=True raises
CalledProcessError); some exported models success, where exported is the
content of the exported challenge binary if the export produced one. -/
abbrev DockerOutcome : Type := Option (Option (List Nat))

/-- The metadata record written as meta.json (lines 121-127). -/
structure MetaOut where
  template : List Char
  flag : List Char
  cflags : List Char
  pad : Nat
  difficulty : List Char

/-- out/<stem>_<idx>, the per-job persistent output directory name
(line 89). -/
def jobDirName (stem : List Char) (idx : Nat) : List Char :=
  stem ++ '_' :: natRepr idx

/-- What one job leaves on disk, plus the fate of its temporary build
context (identified by the job ordinal: mkdtemp yields a fresh directory
for every call). -/
structure JobState where
  outDirName : List Char
  outDirCreated : Bool
  metaJson : Option MetaOut
  binFile : Option (List Nat)
  tmpId : Nat
  tmpRemoved : Bool

/-- The padding step (lines 111-118): if the exported binary exists and the
ceiling is positive, draw pad_len in [0, ceiling] and append that many
random bytes.  Returns (binary after, pad_len recorded, stream). -/
def padStep (bin : Option (List Nat)) (padMax : Int) (g : List Nat) :
    Option (List Nat) × Nat × List Nat :=
  match bin with
  | some b =>
    if padMax > 0 then
      (some (b ++ (urandomBytes (randint 0 padMax.toNat g).1 (randint 0 padMax.toNat g).2).1),
       (randint 0 padMax.toNat g).1,
       (urandomBytes (randint 0 padMax.toNat g).1 (randint 0 padMax.toNat g).2).2)
    else (some b, 0, g)
  | none => (none, 0, g)

/-- Model of build_one (generate_binaries.py lines 83-137): resolve
metadata, create the persistent output directory, create the temporary
context, generate flag and program, choose cflags, run the docker build
(the oracle), pad, write meta.json, and remove the temporary context in the
finally-block whether or not the build raised.  Returns (job state, the
value returned to the caller: some meta on success, none when
CalledProcessError escaped, remaining stream). -/
def build_one (tpl : Template) (idx : Nat) (docker : DockerOutcome) (g : List Nat) :
    JobState × Option MetaOut × List Nat :=
  let flag := (gen_flag g).1
  let g1 := (gen_flag g).2
  let g2 := (prepare_program_from_template tpl.text flag g1).2
  let cflags := (randChoice (resolveCflags tpl.meta) [] g2).1
  let g3 := (randChoice (resolveCflags tpl.meta) [] g2).2
  match docker with
  | none =>
    ({ outDirName := jobDirName tpl.stem idx, outDirCreated := true,
       metaJson := none, binFile := none, tmpId := idx, tmpRemoved := true }, none, g3)
  | some exported =>
    let pr := padStep exported (resolvePadMax tpl.meta) g3
    let meta_out : MetaOut :=
      { template := tpl.name, flag := flag, cflags := cflags,
        pad := pr.2.1, difficulty := resolveDifficulty tpl.meta }
    ({ outDirName := jobDirName tpl.stem idx, outDirCreated := true,
       metaJson := some meta_out, binFile := pr.1, tmpId := idx, tmpRemoved := true },
     some meta_out, pr.2.2)

/-- NUM, the fixed number of jobs (line 15). -/
def NUM : Nat := 4

/-- A fallback template, only for totality of random.choice (the driver
aborts first when the template list is empty). -/
def defaultTemplate : Template :=
  { stem := [], name := [], text := [], meta := ⟨none, none, none, none⟩ }

/-- The record of one attempted job in the driver loop. -/
structure JobRecord where
  idx : Nat
  tpl : Template
  state : JobState
  result : Option MetaOut

/-- The for-loop of __main__ (lines 147-153): for each ordinal, choose a
template uniformly at random, run build_one, catch a CalledProcessError
(the failure is only logged) and continue with the next job. -/
def jobsLoop (templates : List Template) (docker : Nat → DockerOutcome) :
    List Nat → List Nat → List JobRecord
  | [], _ => []
  | i :: is, g =>
    let tpl := (randChoice templates defaultTemplate g).1
    let g1 := (randChoice templates defaultTemplate g).2
    let r := build_one tpl i (docker i) g1
    { idx := i, tpl := tpl, state := r.1, result := r.2.1 } ::
      jobsLoop templates docker is r.2.2

/-- The failure log lines: one "[!] Docker build failed for template ..."
line per caught CalledProcessError, tagged with job ordinal and template
name. -/
def failLogs (records : List JobRecord) : List (Nat × List Char) :=
  records.filterMap (fun r => if r.result.isNone then some (r.idx, r.tpl.name) else none)

/-- Model of the __main__ driver (lines 139-157): abort when no template is
found, otherwise attempt exactly NUM jobs and collect the metadata of the
successful ones into the summary.  Returns none on the SystemExit, else
(job records, summary, failure log lines). -/
def mainRun (templates : List Template) (docker : Nat → DockerOutcome) (g : List Nat) :
    Option (List JobRecord × List MetaOut × List (Nat × List Char)) :=
  if templates.isEmpty then none
  else
    some (jobsLoop templates docker (List.range NUM) g,
          (jobsLoop templates docker (List.range NUM) g).filterMap (fun r => r.result),
          failLogs (jobsLoop templates docker (List.range NUM) g))

theorem randChoice_mem {α : Type} (l : List α) (d : α) (g : List Nat) (h : l ≠ []) :
    (randChoice l d g).1 ∈ l := by
  unfold randChoice
  simp only
  have hlt : (drawNat g).1 % l.length < l.length := Nat.mod_lt _ (List.length_pos.mpr h)
  rw [List.getD_eq_getElem l d hlt]
  exact List.getElem_mem hlt

/-- The invariants of a single job, whatever the docker outcome: the output
directory is created and named from stem and ordinal, the temp context is
its own and is removed, meta.json holds exactly the returned value, and the
returned value is none exactly on a raised build. -/
theorem build_one_state (tpl : Template) (idx : Nat) (docker : DockerOutcome)
    (g : List Nat) :
    (build_one tpl idx docker g).1.tmpRemoved = true ∧
    (build_one tpl idx docker g).1.outDirCreated = true ∧
    (build_one tpl idx docker g).1.metaJson = (build_one tpl idx docker g).2.1 ∧
    (build_one tpl idx docker g).1.outDirName = jobDirName tpl.stem idx ∧
    (build_one tpl idx docker g).1.tmpId = idx ∧
    (docker = none → (build_one tpl idx docker g).2.1 = none) ∧
    (docker ≠ none → ((build_one tpl idx docker g).2.1).isSome = true) := by
  match docker with
  | none => simp [build_one]
  | some exported => simp [build_one]

theorem jobsLoop_idx (templates : List Template) (docker : Nat → DockerOutcome) :
    ∀ (is : List Nat) (g : List Nat),
      (jobsLoop templates docker is g).map (fun r => r.idx) = is := by
  intro is
  induction is with
  | nil => intro g; rfl
  | cons i is ih =>
    intro g
    simp only [jobsLoop, List.map_cons, ih]

theorem jobsLoop_length (templates : List Template) (docker : Nat → DockerOutcome)
    (is : List Nat) (g : List Nat) :
    (jobsLoop templates docker is g).length = is.length := by
  have := jobsLoop_idx templates docker is g
  have h2 := congrArg List.length this
  simpa using h2

theorem jobsLoop_mem (templates : List Template) (docker : Nat → DockerOutcome)
    (htpl : templates ≠ []) :
    ∀ (is : List Nat) (g : List Nat), ∀ r ∈ jobsLoop templates docker is g,
      r.state.tmpRemoved = true ∧ r.state.outDirCreated = true ∧
      r.state.metaJson = r.result ∧
      r.state.outDirName = jobDirName r.tpl.stem r.idx ∧
      r.state.tmpId = r.idx ∧
      (docker r.idx = none → r.result = none) ∧
      (docker r.idx ≠ none → r.result.isSome = true) ∧
      r.tpl ∈ templates := by
  intro is
  induction is with
  | nil => intro g r hr; exact absurd hr (by simp [jobsLoop])
  | cons i is ih =>
    intro g r hr
    rw [jobsLoop, List.mem_cons] at hr
    rcases hr with hr | hr
    · subst hr
      simp only
      have hb := build_one_state (randChoice templates defaultTemplate g).1 i (docker i)
        (randChoice templates defaultTemplate g).2
      exact ⟨hb.1, hb.2.1, hb.2.2.1, hb.2.2.2.1, hb.2.2.2.2.1, hb.2.2.2.2.2.1,
        hb.2.2.2.2.2.2, randChoice_mem templates defaultTemplate g htpl⟩
    · exact ih _ r hr

theorem failLogs_fst_mem (templates : List Template) (docker : Nat → DockerOutcome)
    (is : List Nat) (g : List Nat) :
    ∀ e ∈ failLogs (jobsLoop templates docker is g), e.1 ∈ is := by
  intro e he
  simp only [failLogs, List.mem_filterMap] at he
  obtain ⟨r, hr, hcase⟩ := he
  have : r.idx ∈ (jobsLoop templates docker is g).map (fun r => r.idx) :=
    List.mem_map_of_mem _ hr
  rw [jobsLoop_idx] at this
  by_cases hn : r.result.isNone
  · rw [if_pos hn] at hcase
    rw [← Option.some_inj.mp hcase]
    exact this
  · rw [if_neg hn] at hcase
    exact absurd hcase (by simp)

/-- The failure log lines filtered to one job ordinal are exactly the
failed records with that ordinal, tagged with their template names. -/
theorem failLogs_filter_eq (records : List JobRecord) (i : Nat) :
    (failLogs records).filter (fun e => e.1 = i) =
      (records.filter (fun r => r.idx = i && r.result.isNone)).map
        (fun r => (r.idx, r.tpl.name)) := by
  induction records with
  | nil => rfl
  | cons r0 rest ih =>
    simp only [failLogs, List.filterMap_cons, List.filter_cons] at ih ⊢
    by_cases hfail : r0.result.isNone
    · rw [if_pos hfail]
      by_cases hidx : r0.idx = i
      · rw [List.filter_cons]
        rw [if_pos (by simpa using hidx)]
        rw [if_pos (by simp [hidx, hfail])]
        simp only [List.map_cons]
        rw [← ih]
      · rw [List.filter_cons]
        rw [if_neg (by simpa using hidx)]
        rw [if_neg (by simp [hidx])]
        rw [← ih]
    · simp only [Bool.not_eq_true] at hfail
      rw [show (if r0.result.isNone = true then some (r0.idx, r0.tpl.name) else none) =
          none from by rw [hfail]; rfl]
      rw [if_neg (by simp [hfail])]
      exact ih

/-- In a record list with pairwise distinct ordinals whose failure is
determined by an oracle F on the ordinal, the failed records with a given
listed ordinal number exactly one when F holds there and zero otherwise. -/
theorem filter_idx_count (F : Nat → Bool) :
    ∀ (records : List JobRecord) (i : Nat),
      (records.map (fun r => r.idx)).Nodup →
      (∀ r ∈ records, r.result.isNone = F r.idx) →
      i ∈ records.map (fun r => r.idx) →
      (records.filter (fun r => r.idx = i && r.result.isNone)).length =
        if F i then 1 else 0 := by
  intro records
  induction records with
  | nil => intro i _ _ hi; exact absurd hi (by simp)
  | cons r0 rest ih =>
    intro i hnd hF hi
    simp only [List.map_cons, List.nodup_cons] at hnd
    have htail0 : ∀ j, j ∉ rest.map (fun r => r.idx) →
        (rest.filter (fun r => r.idx = j && r.result.isNone)).length = 0 := by
      intro j hj
      rw [List.length_eq_zero, List.filter_eq_nil_iff]
      intro r hr
      simp only [Bool.and_eq_true, decide_eq_true_eq, not_and]
      intro hc _
      exact hj (hc ▸ List.mem_map_of_mem _ hr)
    rw [List.map_cons, List.mem_cons] at hi
    rcases hi with hidx | hmem
    · subst hidx
      rw [List.filter_cons]
      have hr0F : r0.result.isNone = F r0.idx := hF r0 (by simp)
      by_cases hFi : F r0.idx
      · rw [if_pos (by simp [hr0F, hFi])]
        rw [if_pos hFi]
        simp only [List.length_cons]
        rw [htail0 r0.idx hnd.1]
      · rw [if_neg (by simp [hr0F, hFi])]
        rw [if_neg hFi]
        exact htail0 r0.idx hnd.1
    · rw [List.filter_cons]
      have hne : r0.idx ≠ i := fun hc => hnd.1 (hc ▸ hmem)
      rw [if_neg (by simp [hne])]
      exact ih i hnd.2 (fun r hr => hF r (by simp [hr])) hmem

/-- The random stream state at which build_one runs the padding step (after
flag generation, program preparation and the cflags choice). -/
def buildG3 (tpl : Template) (g : List Nat) : List Nat :=
  (randChoice (resolveCflags tpl.meta) []
    (prepare_program_from_template tpl.text (gen_flag g).1 (gen_flag g).2).2).2

theorem build_one_success_binFile (tpl : Template) (idx : Nat)
    (exported : Option (List Nat)) (g : List Nat) :
    (build_one tpl idx (some exported) g).1.binFile =
      (padStep exported (resolvePadMax tpl.meta) (buildG3 tpl g)).1 := rfl

theorem build_one_success_pad (tpl : Template) (idx : Nat)
    (exported : Option (List Nat)) (g : List Nat) :
    ∃ m : MetaOut,
      (build_one tpl idx (some exported) g).1.metaJson = some m ∧
      (build_one tpl idx (some exported) g).2.1 = some m ∧
      m.pad = (padStep exported (resolvePadMax tpl.meta) (buildG3 tpl g)).2.1 :=
  ⟨_, rfl, rfl, rfl⟩

theorem padStep_spec (bin : List Nat) (padMax : Int) (g : List Nat) (hp : 0 < padMax) :
    ∃ newBin, (padStep (some bin) padMax g).1 = some newBin ∧
      newBin.length = bin.length + (padStep (some bin) padMax g).2.1 ∧
      (padStep (some bin) padMax g).2.1 ≤ padMax.toNat := by
  unfold padStep
  simp only
  rw [if_pos hp]
  refine ⟨_, rfl, ?_, ?_⟩
  · simp [urandomBytes_length]
  · exact (randint_le 0 padMax.toNat g (by omega)).2

theorem jobsLoop_result_isNone (templates : List Template) (docker : Nat → DockerOutcome)
    (htpl : templates ≠ []) (is : List Nat) (g : List Nat) :
    ∀ r ∈ jobsLoop templates docker is g, r.result.isNone = (docker r.idx).isNone := by
  intro r hr
  have hm := jobsLoop_mem templates docker htpl is g r hr
  rcases hd : docker r.idx with _ | ex
  · rw [hm.2.2.2.2.2.1 hd]
    rfl
  · have := hm.2.2.2.2.2.2.1 (by simp [hd])
    simp [Option.isNone_iff_eq_none, ← Option.not_isSome_iff_eq_none, this]

theorem mainRun_eq (templates : List Template) (docker : Nat → DockerOutcome)
    (g : List Nat) (htpl : templates ≠ []) :
    mainRun templates docker g =
      some (jobsLoop templates docker (List.range NUM) g,
        (jobsLoop templates docker (List.range NUM) g).filterMap (fun r => r.result),
        failLogs (jobsLoop templates docker (List.range NUM) g)) := by
  unfold mainRun
  rw [if_neg (by simpa [List.isEmpty_iff] using htpl)]

/-! ## Claims C3, C4, C5, C6, C9 -/

/-- C3: for every job in which the compiled binary exists (the build
exported it) and the configured padding ceiling is positive, the binary
after the padding step is the original with appended bytes (never shorter),
the size difference equals the pad count recorded in the job's meta.json,
and that count lies in [0, ceiling]. -/
theorem C3_padding (tpl : Template) (idx : Nat) (bin : List Nat) (g : List Nat)
    (hpad : 0 < resolvePadMax tpl.meta) :
    ∃ (newBin : List Nat) (m : MetaOut),
      (build_one tpl idx (some (some bin)) g).1.binFile = some newBin ∧
      (build_one tpl idx (some (some bin)) g).1.metaJson = some m ∧
      (build_one tpl idx (some (some bin)) g).2.1 = some m ∧
      bin.length ≤ newBin.length ∧
      newBin.length - bin.length = m.pad ∧
      (m.pad : Int) ≤ resolvePadMax tpl.meta := by
  obtain ⟨newBin, h1, h2, h3⟩ :=
    padStep_spec bin (resolvePadMax tpl.meta) (buildG3 tpl g) hpad
  obtain ⟨m, hm1, hm2, hm3⟩ := build_one_success_pad tpl idx (some bin) g
  refine ⟨newBin, m, ?_, hm1, hm2, ?_, ?_, ?_⟩
  · rw [build_one_success_binFile, h1]
  · omega
  · omega
  · rw [hm3]
    have := Int.toNat_of_nonneg (Int.le_of_lt hpad)
    omega

/-- Witness for C3 at the default-metadata template (ceiling 1024), ordinal
0, a one-byte binary and an empty random stream. -/
theorem C3_padding_witness :
    0 < resolvePadMax defaultTemplate.meta ∧
    ∃ (newBin : List Nat) (m : MetaOut),
      (build_one defaultTemplate 0 (some (some [7])) []).1.binFile = some newBin ∧
      (build_one defaultTemplate 0 (some (some [7])) []).1.metaJson = some m ∧
      (build_one defaultTemplate 0 (some (some [7])) []).2.1 = some m ∧
      [7].length ≤ newBin.length ∧
      newBin.length - [7].length = m.pad ∧
      (m.pad : Int) ≤ resolvePadMax defaultTemplate.meta :=
  ⟨by decide, C3_padding defaultTemplate 0 [7] [] (by decide)⟩

/-- C4: a generation job whose docker build fails (nonzero exit raising
CalledProcessError) is caught by the top-level caller: the run still
attempts all NUM jobs and returns normally, the failed job's output
directory holds no meta.json, and exactly one failure log line is emitted
for that job. -/
theorem C4_failure_isolated (templates : List Template) (docker : Nat → DockerOutcome)
    (g : List Nat) (htpl : templates ≠ []) (i : Nat) (hi : i < NUM)
    (hfail : docker i = none) :
    ∃ records results logs,
      mainRun templates docker g = some (records, results, logs) ∧
      records.length = NUM ∧
      records.map (fun r => r.idx) = List.range NUM ∧
      (∀ r ∈ records, r.idx = i → r.state.metaJson = none) ∧
      (logs.filter (fun e => e.1 = i)).length = 1 := by
  refine ⟨_, _, _, mainRun_eq templates docker g htpl, ?_, jobsLoop_idx templates docker _ g,
    ?_, ?_⟩
  · rw [jobsLoop_length]
    simp [NUM]
  · intro r hr hidx
    have hm := jobsLoop_mem templates docker htpl _ g r hr
    rw [hm.2.2.1]
    exact hm.2.2.2.2.2.1 (hidx ▸ hfail)
  · rw [failLogs_filter_eq, List.length_map]
    rw [filter_idx_count (fun j => (docker j).isNone) _ i
      (by rw [jobsLoop_idx]; exact List.nodup_range NUM)
      (jobsLoop_result_isNone templates docker htpl _ g)
      (by rw [jobsLoop_idx]; exact List.mem_range.mpr hi)]
    rw [if_pos (by simp [hfail])]

/-- Witness for C4: one template, a docker oracle that always fails, job 0. -/
theorem C4_failure_isolated_witness :
    ∃ records results logs,
      mainRun [defaultTemplate] (fun _ => none) [] = some (records, results, logs) ∧
      records.length = NUM ∧
      records.map (fun r => r.idx) = List.range NUM ∧
      (∀ r ∈ records, r.idx = 0 → r.state.metaJson = none) ∧
      (logs.filter (fun e => e.1 = 0)).length = 1 :=
  C4_failure_isolated [defaultTemplate] (fun _ => none) [] (by simp) 0 (by decide) rfl

/-- C5: against a non-empty template set the driver attempts exactly NUM
jobs (one record per ordinal 0..NUM-1, failures included), the summary of
successfully recorded metadata has at most NUM entries, and every failed
job is logged exactly once (and successful ones not at all). -/
theorem C5_driver (templates : List Template) (docker : Nat → DockerOutcome)
    (g : List Nat) (htpl : templates ≠ []) :
    ∃ records results logs,
      mainRun templates docker g = some (records, results, logs) ∧
      records.map (fun r => r.idx) = List.range NUM ∧
      records.length = NUM ∧
      results.length ≤ NUM ∧
      (∀ i, i < NUM → (logs.filter (fun e => e.1 = i)).length =
        if (docker i).isNone then 1 else 0) := by
  refine ⟨_, _, _, mainRun_eq templates docker g htpl,
    jobsLoop_idx templates docker _ g, ?_, ?_, ?_⟩
  · rw [jobsLoop_length]
    simp [NUM]
  · calc ((jobsLoop templates docker (List.range NUM) g).filterMap
        (fun r => r.result)).length
        ≤ (jobsLoop templates docker (List.range NUM) g).length :=
          List.length_filterMap_le _ _
      _ = NUM := by rw [jobsLoop_length]; simp [NUM]
  · intro i hi
    rw [failLogs_filter_eq, List.length_map]
    exact filter_idx_count (fun j => (docker j).isNone) _ i
      (by rw [jobsLoop_idx]; exact List.nodup_range NUM)
      (jobsLoop_result_isNone templates docker htpl _ g)
      (by rw [jobsLoop_idx]; exact List.mem_range.mpr hi)

/-- Witness for C5: one template, a docker oracle failing on even ordinals. -/
theorem C5_driver_witness :
    ∃ records results logs,
      mainRun [defaultTemplate] (fun i => if i % 2 = 0 then none else some none) []
        = some (records, results, logs) ∧
      records.map (fun r => r.idx) = List.range NUM ∧
      records.length = NUM ∧
      results.length ≤ NUM ∧
      (∀ i, i < NUM → (logs.filter (fun e => e.1 = i)).length =
        if ((fun i => if i % 2 = 0 then none else some none) i : DockerOutcome).isNone
        then 1 else 0) :=
  C5_driver [defaultTemplate] (fun i => if i % 2 = 0 then none else some none) [] (by simp)

/-- C6: for every generation job, whether the docker build succeeds or
fails, the job's temporary build context is removed before the job
completes, and each job's context is its own fresh mkdtemp directory
(identified here by the job ordinal), never reused by a later job. -/
theorem C6_tmp_cleanup (templates : List Template) (docker : Nat → DockerOutcome)
    (g : List Nat) (htpl : templates ≠ []) :
    ∃ records results logs,
      mainRun templates docker g = some (records, results, logs) ∧
      (∀ r ∈ records, r.state.tmpRemoved = true) ∧
      records.map (fun r => r.state.tmpId) = List.range NUM := by
  refine ⟨_, _, _, mainRun_eq templates docker g htpl, ?_, ?_⟩
  · intro r hr
    exact (jobsLoop_mem templates docker htpl _ g r hr).1
  · have hcong : (jobsLoop templates docker (List.range NUM) g).map
        (fun r => r.state.tmpId) =
        (jobsLoop templates docker (List.range NUM) g).map (fun r => r.idx) := by
      refine List.map_congr_left ?_
      intro r hr
      exact (jobsLoop_mem templates docker htpl _ g r hr).2.2.2.2.1
    rw [hcong, jobsLoop_idx]

/-- Witness for C6: one template, a docker oracle failing on job 2 only. -/
theorem C6_tmp_cleanup_witness :
    ∃ records results logs,
      mainRun [defaultTemplate] (fun i => if i = 2 then none else some (some [0])) []
        = some (records, results, logs) ∧
      (∀ r ∈ records, r.state.tmpRemoved = true) ∧
      records.map (fun r => r.state.tmpId) = List.range NUM :=
  C6_tmp_cleanup [defaultTemplate] (fun i => if i = 2 then none else some (some [0])) []
    (by simp)

/-- C9: for every generation job whose docker build fails, the job's
persistent output directory, named from the template stem and the job
ordinal, is still present (it is created in the Prepare step before the
build is attempted and never removed on failure), and it contains no
meta.json. -/
theorem C9_outdir_persists (templates : List Template) (docker : Nat → DockerOutcome)
    (g : List Nat) (htpl : templates ≠ []) (i : Nat) (hi : i < NUM)
    (hfail : docker i = none) :
    ∃ records results logs,
      mainRun templates docker g = some (records, results, logs) ∧
      records.map (fun r => r.idx) = List.range NUM ∧
      (∀ r ∈ records, r.idx = i →
        r.state.outDirCreated = true ∧
        r.state.outDirName = jobDirName r.tpl.stem i ∧
        r.state.metaJson = none) := by
  refine ⟨_, _, _, mainRun_eq templates docker g htpl, jobsLoop_idx templates docker _ g, ?_⟩
  intro r hr hidx
  have hm := jobsLoop_mem templates docker htpl _ g r hr
  refine ⟨hm.2.1, hidx ▸ hm.2.2.2.1, ?_⟩
  rw [hm.2.2.1]
  exact hm.2.2.2.2.2.1 (hidx ▸ hfail)

/-- Witness for C9: one template, a docker oracle that always fails, job 1. -/
theorem C9_outdir_persists_witness :
    ∃ records results logs,
      mainRun [defaultTemplate] (fun _ => none) [] = some (records, results, logs) ∧
      records.map (fun r => r.idx) = List.range NUM ∧
      (∀ r ∈ records, r.idx = 1 →
        r.state.outDirCreated = true ∧
        r.state.outDirName = jobDirName r.tpl.stem 1 ∧
        r.state.metaJson = none) :=
  C9_outdir_persists [defaultTemplate] (fun _ => none) [] (by simp) 1 (by decide) rfl

/-! ## The compose packager (generate_docker_compose.py) -/

/-- A pathlib-style path: absolute flag and components. -/
structure PyPath where
  absolute : Bool
  parts : List String
deriving DecidableEq

/-- Split a character list on the path separator. -/
def splitSlashAux : List Char → List Char → List String
  | [], acc => [String.mk acc.reverse]
  | '/' :: rest, acc => String.mk acc.reverse :: splitSlashAux rest []
  | c :: rest, acc => splitSlashAux rest (c :: acc)

/-- pathlib.Path applied to a string: leading "/" means absolute, the
components are the non-empty "/"-separated pieces. -/
def parsePath (s : String) : PyPath :=
  { absolute := (match s.toList with | '/' :: _ => true | _ => false),
    parts := (splitSlashAux s.toList []).filter (fun p => ¬ p = "") }

/-- Path.name: the final component (empty for an empty path). -/
def pathName (p : PyPath) : String := p.parts.getLast?.getD ""

/-- (workspace_root / relpath), line 70: an absolute path stands alone, a
relative one is appended to the workspace root. -/
def resolveUnder (ws : PyPath) (p : PyPath) : PyPath :=
  if p.absolute then p else { absolute := ws.absolute, parts := ws.parts ++ p.parts }

/-- The JSON documents the packager can be fed. -/
inductive Json where
  | str (s : String)
  | num (n : Int)
  | jbool (b : Bool)
  | null
  | arr (items : List Json)
  | obj (fields : List (String × Json))

/-- One list item of an array manifest (lines 47-50): must be a string; the
destination name is the path's basename. -/
def entryOfItem : Json → Except String (String × PyPath)
  | .str p => .ok (pathName (parsePath p), parsePath p)
  | _ => .error "JSON list items must be strings (file paths)"

/-- One field of an object manifest (lines 53-56): the value must be a
string; the destination name is the key. -/
def entryOfField : String × Json → Except String (String × PyPath)
  | (k, .str v) => .ok (k, parsePath v)
  | _ => .error "JSON object values must be strings (file paths)"

/-- Model of normalize_entries (lines 43-59). -/
def normalize_entries : Json → Except String (List (String × PyPath))
  | .arr items => items.mapM entryOfItem
  | .obj fields => fields.mapM entryOfField
  | _ => .error "JSON must be an array (list of paths) or an object mapping names to paths"

/-- The filesystem the packager reads: paths associated to file contents
(contents abstracted to a tag). -/
def FS : Type := List (PyPath × Nat)

/-- Whether a path exists, and with which content. -/
def fsLookup (fs : FS) (p : PyPath) : Option Nat :=
  (fs.find? (fun e => e.1 = p)).map (fun e => e.2)

/-- One file in the build context directory: a copied binary or the written
build recipe. -/
inductive CtxEntry where
  | file (content : Nat)
  | dockerfile
deriving DecidableEq

/-- The build context directory contents, keyed by destination file name. -/
def Ctx : Type := List (String × CtxEntry)

/-- Writing a file into the context: copying onto an existing name
overwrites that file (same destination path). -/
def ctxPut (ctx : Ctx) (name : String) (e : CtxEntry) : Ctx :=
  (ctx.filter (fun kv => ¬ kv.1 = name)) ++ [(name, e)]

/-- Reading one file of the context directory by name. -/
def ctxLookup (ctx : Ctx) (name : String) : Option CtxEntry :=
  (ctx.find? (fun kv => kv.1 = name)).map (fun kv => kv.2)

/-- The destination names present in the context directory. -/
def ctxKeys (ctx : Ctx) : List String := ctx.map Prod.fst

/-- The copy loop of prepare_build_context (lines 69-76): copy each entry in
order into the context; a missing source file is a fatal SystemExit that
leaves the partially filled directory behind. -/
def copyLoop (ws : PyPath) (fs : FS) : List (String × PyPath) → Ctx → Ctx × Option String
  | [], ctx => (ctx, none)
  | (name, rel) :: rest, ctx =>
    match fsLookup fs (resolveUnder ws rel) with
    | none => (ctx, some "Source file not found")
    | some content => copyLoop ws fs rest (ctxPut ctx name (.file content))

/-- Model of prepare_build_context (lines 62-76): the output directory is
recreated from scratch (pre-existing contents are destroyed), then the
files are copied. -/
def prepare_build_context (entries : List (String × PyPath)) (ws : PyPath) (fs : FS) :
    Ctx × Option String :=
  copyLoop ws fs entries []

/-- The compose descriptor written by write_compose (lines 90-101),
semantically: the service name, image name and build context it names. -/
structure ComposeOut where
  service : String
  image : String
  context : String
deriving DecidableEq

/-- The observable outcome of a packager run: the state of the build
context directory (none: never touched), the compose descriptor (none: not
written), and the SystemExit message (none: success). -/
structure PackResult where
  ctx : Option Ctx
  compose : Option ComposeOut
  err : Option String

/-- Lines 121-126 after the copy loop: on a fatal copy error nothing more
is written; on success write_dockerfile adds the Dockerfile to the context
and write_compose emits the descriptor pointing at the chosen output
directory. -/
def packAfterCopy (pr : Ctx × Option String) (outName service image : String) : PackResult :=
  match pr with
  | (ctx, some e) => { ctx := some ctx, compose := none, err := some e }
  | (ctx, none) =>
    { ctx := some (ctxPut ctx "Dockerfile" CtxEntry.dockerfile),
      compose := some { service := service, image := image, context := outName },
      err := none }

/-- Model of main (lines 104-135) from the parsed manifest onward:
normalize the entries (a wrong shape is fatal before the output directory
is touched), recreate the build context and copy the files (a missing file
is fatal after the recreation), then write the Dockerfile into the context
and the compose descriptor pointing at the chosen output directory. -/
def packMain (raw : Json) (ws : PyPath) (outName service image : String) (fs : FS) :
    PackResult :=
  match normalize_entries raw with
  | .error e => { ctx := none, compose := none, err := some e }
  | .ok entries => packAfterCopy (prepare_build_context entries ws fs) outName service image

theorem ctxPut_cons (kv : String × CtxEntry) (rest : Ctx) (n : String) (e : CtxEntry) :
    ctxPut (kv :: rest) n e =
      if kv.1 = n then ctxPut rest n e else kv :: ctxPut rest n e := by
  by_cases hk : kv.1 = n
  · rw [if_pos hk]
    simp [ctxPut, hk]
  · rw [if_neg hk]
    simp [ctxPut, hk]

theorem ctxLookup_cons (kv : String × CtxEntry) (rest : Ctx) (m : String) :
    ctxLookup (kv :: rest) m = if kv.1 = m then some kv.2 else ctxLookup rest m := by
  by_cases hk : kv.1 = m
  · rw [if_pos hk]
    unfold ctxLookup
    rw [List.find?_cons_of_pos _ (by simpa using hk)]
    rfl
  · rw [if_neg hk]
    unfold ctxLookup
    rw [List.find?_cons_of_neg _ (by simpa using hk)]

theorem ctxLookup_ctxPut_self (ctx : Ctx) (n : String) (e : CtxEntry) :
    ctxLookup (ctxPut ctx n e) n = some e := by
  induction ctx with
  | nil =>
    show ctxLookup [(n, e)] n = some e
    rw [ctxLookup_cons]
    simp
  | cons kv rest ih =>
    rw [ctxPut_cons]
    by_cases hk : kv.1 = n
    · rw [if_pos hk]
      exact ih
    · rw [if_neg hk, ctxLookup_cons, if_neg hk]
      exact ih

theorem ctxLookup_ctxPut_other (ctx : Ctx) (n : String) (e : CtxEntry) (m : String)
    (h : ¬ m = n) :
    ctxLookup (ctxPut ctx n e) m = ctxLookup ctx m := by
  induction ctx with
  | nil =>
    show ctxLookup [(n, e)] m = ctxLookup [] m
    rw [ctxLookup_cons]
    rw [if_neg (by simpa using fun hc => h hc.symm)]
  | cons kv rest ih =>
    rw [ctxPut_cons]
    by_cases hk : kv.1 = n
    · rw [if_pos hk, ih, ctxLookup_cons]
      rw [if_neg (by rw [hk]; exact fun hc => h hc.symm)]
    · rw [if_neg hk, ctxLookup_cons, ctxLookup_cons, ih]

theorem ctxKeys_ctxPut_mem (ctx : Ctx) (n : String) (e : CtxEntry) (m : String) :
    m ∈ ctxKeys (ctxPut ctx n e) ↔ m = n ∨ m ∈ ctxKeys ctx := by
  simp only [ctxKeys, ctxPut, List.map_append, List.mem_append, List.map_cons,
    List.map_nil, List.mem_singleton, List.mem_map, List.mem_filter]
  constructor
  · rintro (⟨kv, ⟨hkv, _⟩, hm⟩ | hm)
    · exact Or.inr ⟨kv, hkv, hm⟩
    · exact Or.inl hm
  · rintro (hm | ⟨kv, hkv, hm⟩)
    · exact Or.inr hm
    · by_cases hk : kv.1 = n
      · exact Or.inr (hm ▸ hk)
      · exact Or.inl ⟨kv, ⟨hkv, by simpa using hk⟩, hm⟩

theorem ctxKeys_ctxPut_nodup (ctx : Ctx) (n : String) (e : CtxEntry)
    (h : (ctxKeys ctx).Nodup) : (ctxKeys (ctxPut ctx n e)).Nodup := by
  simp only [ctxKeys, ctxPut, List.map_append, List.map_cons, List.map_nil]
  rw [List.nodup_append]
  refine ⟨?_, List.nodup_singleton n, ?_⟩
  · have : List.Sublist (ctx.filter (fun kv => ¬ kv.1 = n)) ctx := List.filter_sublist ctx
    exact (this.map Prod.fst).nodup h
  · intro m hm
    simp only [List.mem_map, List.mem_filter] at hm
    obtain ⟨kv, ⟨_, hkv⟩, hmeq⟩ := hm
    simp only [List.mem_singleton]
    intro hc
    rw [hc] at hmeq
    exact absurd hmeq (by simpa using hkv)

theorem copyLoop_keys_nodup (ws : PyPath) (fs : FS) :
    ∀ (entries : List (String × PyPath)) (ctx : Ctx), (ctxKeys ctx).Nodup →
      (ctxKeys (copyLoop ws fs entries ctx).1).Nodup := by
  intro entries
  induction entries with
  | nil => intro ctx h; exact h
  | cons e rest ih =>
    intro ctx h
    obtain ⟨n, r⟩ := e
    rw [copyLoop]
    rcases hm : fsLookup fs (resolveUnder ws r) with _ | c
    · exact h
    · exact ih _ (ctxKeys_ctxPut_nodup ctx n _ h)

theorem copyLoop_keys_subset (ws : PyPath) (fs : FS) :
    ∀ (entries : List (String × PyPath)) (ctx : Ctx),
      ∀ m ∈ ctxKeys (copyLoop ws fs entries ctx).1,
        m ∈ ctxKeys ctx ∨ m ∈ entries.map Prod.fst := by
  intro entries
  induction entries with
  | nil => intro ctx m hm; exact Or.inl hm
  | cons e rest ih =>
    intro ctx m hm
    obtain ⟨n, r⟩ := e
    rw [copyLoop] at hm
    rcases hfs : fsLookup fs (resolveUnder ws r) with _ | c
    · rw [hfs] at hm
      exact Or.inl hm
    · rw [hfs] at hm
      rcases ih (ctxPut ctx n (.file c)) m hm with hin | hin
      · rcases (ctxKeys_ctxPut_mem ctx n _ m).mp hin with hin | hin
        · exact Or.inr (by simp [hin])
        · exact Or.inl hin
      · exact Or.inr (by simp only [List.map_cons, List.mem_cons]; exact Or.inr hin)

theorem copyLoop_lookup_of_not_mem (ws : PyPath) (fs : FS) :
    ∀ (entries : List (String × PyPath)) (ctx : Ctx) (n : String),
      n ∉ entries.map Prod.fst →
      ctxLookup (copyLoop ws fs entries ctx).1 n = ctxLookup ctx n := by
  intro entries
  induction entries with
  | nil => intro ctx n _; rfl
  | cons e rest ih =>
    intro ctx n hn
    obtain ⟨m, r⟩ := e
    simp only [List.map_cons, List.mem_cons, not_or] at hn
    rw [copyLoop]
    rcases hfs : fsLookup fs (resolveUnder ws r) with _ | c
    · rfl
    · rw [ih _ n hn.2, ctxLookup_ctxPut_other _ _ _ _ (by simpa using hn.1)]

theorem copyLoop_all_exist (ws : PyPath) (fs : FS) :
    ∀ (entries : List (String × PyPath)) (ctx : Ctx),
      (∀ e ∈ entries, (fsLookup fs (resolveUnder ws e.2)).isSome = true) →
      (copyLoop ws fs entries ctx).2 = none := by
  intro entries
  induction entries with
  | nil => intro ctx _; rfl
  | cons e rest ih =>
    intro ctx hex
    obtain ⟨n, r⟩ := e
    rw [copyLoop]
    rcases hfs : fsLookup fs (resolveUnder ws r) with _ | c
    · have := hex (n, r) (by simp)
      rw [hfs] at this
      exact absurd this (by simp)
    · exact ih _ (fun e he => hex e (by simp [he]))

theorem copyLoop_append (ws : PyPath) (fs : FS) :
    ∀ (as bs : List (String × PyPath)) (ctx : Ctx),
      (∀ e ∈ as, (fsLookup fs (resolveUnder ws e.2)).isSome = true) →
      copyLoop ws fs (as ++ bs) ctx = copyLoop ws fs bs (copyLoop ws fs as ctx).1 := by
  intro as
  induction as with
  | nil => intro bs ctx _; rfl
  | cons e rest ih =>
    intro bs ctx hex
    obtain ⟨n, r⟩ := e
    rcases hfs : fsLookup fs (resolveUnder ws r) with _ | c
    · have := hex (n, r) (by simp)
      rw [hfs] at this
      exact absurd this (by simp)
    · rw [List.cons_append, copyLoop, copyLoop, hfs]
      simp only
      exact ih bs _ (fun e he => hex e (by simp [he]))

theorem copyLoop_nil (ws : PyPath) (fs : FS) (ctx : Ctx) :
    copyLoop ws fs [] ctx = (ctx, none) := rfl

theorem copyLoop_cons_some (ws : PyPath) (fs : FS) (n : String) (r : PyPath)
    (rest : List (String × PyPath)) (ctx : Ctx) (c : Nat)
    (h : fsLookup fs (resolveUnder ws r) = some c) :
    copyLoop ws fs ((n, r) :: rest) ctx =
      copyLoop ws fs rest (ctxPut ctx n (CtxEntry.file c)) := by
  rw [copyLoop, h]

theorem copyLoop_cons_none (ws : PyPath) (fs : FS) (n : String) (r : PyPath)
    (rest : List (String × PyPath)) (ctx : Ctx)
    (h : fsLookup fs (resolveUnder ws r) = none) :
    copyLoop ws fs ((n, r) :: rest) ctx = (ctx, some "Source file not found") := by
  rw [copyLoop, h]

/-- The copy loop on a manifest with a missing file: the entries split at
the first missing one, the preceding entries are all copied, and the run
stops there with the fatal message. -/
theorem copyLoop_first_missing (ws : PyPath) (fs : FS) :
    ∀ (entries : List (String × PyPath)) (ctx : Ctx),
      (∃ e ∈ entries, fsLookup fs (resolveUnder ws e.2) = none) →
      ∃ pre eMiss post ctxPre,
        entries = pre ++ eMiss :: post ∧
        (∀ e ∈ pre, (fsLookup fs (resolveUnder ws e.2)).isSome = true) ∧
        fsLookup fs (resolveUnder ws eMiss.2) = none ∧
        copyLoop ws fs pre ctx = (ctxPre, none) ∧
        copyLoop ws fs entries ctx = (ctxPre, some "Source file not found") := by
  intro entries
  induction entries with
  | nil =>
    intro ctx h
    simp at h
  | cons e0 rest ih =>
    intro ctx hex
    obtain ⟨n0, r0⟩ := e0
    rcases hm : fsLookup fs (resolveUnder ws r0) with _ | c
    · refine ⟨[], (n0, r0), rest, ctx, rfl, by simp, hm, rfl, ?_⟩
      rw [copyLoop, hm]
    · have hex2 : ∃ e ∈ rest, fsLookup fs (resolveUnder ws e.2) = none := by
        rcases hex with ⟨e, he, hnone⟩
        rcases List.mem_cons.mp he with he0 | hmem
        · rw [he0] at hnone
          simp only at hnone
          rw [hm] at hnone
          exact absurd hnone (by simp)
        · exact ⟨e, hmem, hnone⟩
      obtain ⟨pre, eMiss, post, ctxPre, hsplit, hpre, hmiss, hcpre, hcall⟩ :=
        ih (ctxPut ctx n0 (.file c)) hex2
      refine ⟨(n0, r0) :: pre, eMiss, post, ctxPre, by rw [List.cons_append, hsplit],
        ?_, hmiss, ?_, ?_⟩
      · intro e he
        rcases List.mem_cons.mp he with he0 | hmem
        · rw [he0]
          simp only
          rw [hm]
          rfl
        · exact hpre e hmem
      · rw [copyLoop, hm]
        exact hcpre
      · rw [copyLoop, hm]
        exact hcall

/-- On an array manifest of strings the destination names are exactly the
basenames of the paths. -/
theorem normalize_arr (paths : List String) :
    normalize_entries (Json.arr (paths.map Json.str)) =
      Except.ok (paths.map (fun p => (pathName (parsePath p), parsePath p))) := by
  unfold normalize_entries
  induction paths with
  | nil => rfl
  | cons p rest ih =>
    simp only [List.map_cons, List.mapM_cons] at ih ⊢
    rw [show entryOfItem (Json.str p) =
      Except.ok (pathName (parsePath p), parsePath p) from rfl]
    simp only [ih]
    rfl

/-! ## Claims C7, C8, C10 -/

/-- C7: for the mapping manifest with names a.bin and b.bin whose two
resolved paths exist, a successful packager run leaves the build-context
directory containing exactly a.bin, b.bin and the Dockerfile, and writes a
compose descriptor naming the configured service and image, with the build
context pointing at the configured output directory. -/
theorem C7_mapping_manifest (ws : PyPath) (fs : FS) (outName service image : String)
    (ca cb : Nat)
    (ha : fsLookup fs (resolveUnder ws (parsePath "bins/a.bin")) = some ca)
    (hb : fsLookup fs (resolveUnder ws (parsePath "bins/b.bin")) = some cb) :
    packMain (Json.obj [("a.bin", Json.str "bins/a.bin"), ("b.bin", Json.str "bins/b.bin")])
        ws outName service image fs =
      { ctx := some [("a.bin", CtxEntry.file ca), ("b.bin", CtxEntry.file cb),
                     ("Dockerfile", CtxEntry.dockerfile)],
        compose := some { service := service, image := image, context := outName },
        err := none } := by
  have hnorm : normalize_entries
      (Json.obj [("a.bin", Json.str "bins/a.bin"), ("b.bin", Json.str "bins/b.bin")]) =
      Except.ok [("a.bin", parsePath "bins/a.bin"), ("b.bin", parsePath "bins/b.bin")] := rfl
  have hcl : copyLoop ws fs
      [("a.bin", parsePath "bins/a.bin"), ("b.bin", parsePath "bins/b.bin")] [] =
      ([("a.bin", CtxEntry.file ca), ("b.bin", CtxEntry.file cb)], none) := by
    rw [copyLoop_cons_some ws fs _ _ _ _ _ ha, copyLoop_cons_some ws fs _ _ _ _ _ hb,
      copyLoop_nil]
    rfl
  unfold packMain
  rw [hnorm]
  show packAfterCopy (prepare_build_context
      [("a.bin", parsePath "bins/a.bin"), ("b.bin", parsePath "bins/b.bin")] ws fs)
      outName service image = _
  unfold prepare_build_context
  rw [hcl]
  rfl

/-- Witness for C7: a two-file filesystem under workspace root /w. -/
theorem C7_mapping_manifest_witness :
    fsLookup [(resolveUnder (parsePath "/w") (parsePath "bins/a.bin"), 1),
              (resolveUnder (parsePath "/w") (parsePath "bins/b.bin"), 2)]
        (resolveUnder (parsePath "/w") (parsePath "bins/a.bin")) = some 1 ∧
    fsLookup [(resolveUnder (parsePath "/w") (parsePath "bins/a.bin"), 1),
              (resolveUnder (parsePath "/w") (parsePath "bins/b.bin"), 2)]
        (resolveUnder (parsePath "/w") (parsePath "bins/b.bin")) = some 2 ∧
    packMain (Json.obj [("a.bin", Json.str "bins/a.bin"), ("b.bin", Json.str "bins/b.bin")])
        (parsePath "/w") "docker_build2" "binaries" "ctf-binaries:latest"
        [(resolveUnder (parsePath "/w") (parsePath "bins/a.bin"), 1),
         (resolveUnder (parsePath "/w") (parsePath "bins/b.bin"), 2)] =
      { ctx := some [("a.bin", CtxEntry.file 1), ("b.bin", CtxEntry.file 2),
                     ("Dockerfile", CtxEntry.dockerfile)],
        compose := some { service := "binaries", image := "ctf-binaries:latest",
                          context := "docker_build2" },
        err := none } :=
  ⟨rfl, rfl,
    C7_mapping_manifest (parsePath "/w") _ "docker_build2" "binaries" "ctf-binaries:latest"
      1 2 rfl rfl⟩

/-- C8: a manifest referencing at least one path that does not resolve to
an existing file aborts the run with a fatal error: no compose descriptor
is written, no Dockerfile is written, and the freshly recreated context
directory holds at most the copies of the entries preceding the first
missing file. -/
theorem C8_missing_fatal (raw : Json) (ws : PyPath) (outName service image : String)
    (fs : FS) (entries : List (String × PyPath))
    (hnorm : normalize_entries raw = Except.ok entries)
    (hmiss : ∃ e ∈ entries, fsLookup fs (resolveUnder ws e.2) = none) :
    ∃ pre eMiss post ctxPre,
      entries = pre ++ eMiss :: post ∧
      (∀ e ∈ pre, (fsLookup fs (resolveUnder ws e.2)).isSome = true) ∧
      fsLookup fs (resolveUnder ws eMiss.2) = none ∧
      copyLoop ws fs pre [] = (ctxPre, none) ∧
      packMain raw ws outName service image fs =
        { ctx := some ctxPre, compose := none, err := some "Source file not found" } := by
  obtain ⟨pre, eMiss, post, ctxPre, h1, h2, h3, h4, h5⟩ :=
    copyLoop_first_missing ws fs entries [] hmiss
  refine ⟨pre, eMiss, post, ctxPre, h1, h2, h3, h4, ?_⟩
  unfold packMain
  rw [hnorm]
  show packAfterCopy (prepare_build_context entries ws fs) outName service image = _
  unfold prepare_build_context
  rw [h5]
  rfl

/-- Witness for C8: a one-entry array manifest on an empty filesystem. -/
theorem C8_missing_fatal_witness :
    (normalize_entries (Json.arr [Json.str "missing.bin"]) =
      Except.ok [(pathName (parsePath "missing.bin"), parsePath "missing.bin")]) ∧
    (∃ e ∈ [(pathName (parsePath "missing.bin"), parsePath "missing.bin")],
      fsLookup [] (resolveUnder (parsePath "/w") e.2) = none) ∧
    ∃ pre eMiss post ctxPre,
      [(pathName (parsePath "missing.bin"), parsePath "missing.bin")] =
        pre ++ eMiss :: post ∧
      (∀ e ∈ pre, (fsLookup [] (resolveUnder (parsePath "/w") e.2)).isSome = true) ∧
      fsLookup [] (resolveUnder (parsePath "/w") eMiss.2) = none ∧
      copyLoop (parsePath "/w") [] pre [] = (ctxPre, none) ∧
      packMain (Json.arr [Json.str "missing.bin"]) (parsePath "/w") "docker_build2"
          "binaries" "ctf-binaries:latest" [] =
        { ctx := some ctxPre, compose := none, err := some "Source file not found" } :=
  ⟨rfl,
    ⟨(pathName (parsePath "missing.bin"), parsePath "missing.bin"), by simp, rfl⟩,
    C8_missing_fatal (Json.arr [Json.str "missing.bin"]) (parsePath "/w")
      "docker_build2" "binaries" "ctf-binaries:latest" [] _ rfl
      ⟨(pathName (parsePath "missing.bin"), parsePath "missing.bin"), by simp, rfl⟩⟩

/-- A duplicate-free list drawn from a list with a repetition is strictly
shorter than it. -/
theorem keys_lt_of_dup (keys names : List String) (hnd : keys.Nodup)
    (hsub : ∀ m ∈ keys, m ∈ names) (hdup : ¬ names.Nodup) :
    keys.length < names.length := by
  have h1 : keys.length = keys.toFinset.card := (List.toFinset_card_of_nodup hnd).symm
  have h2 : keys.toFinset ⊆ names.toFinset := by
    intro x hx
    rw [List.mem_toFinset] at hx ⊢
    exact hsub x hx
  have h3 : keys.toFinset.card ≤ names.toFinset.card := Finset.card_le_card h2
  have h4 : names.toFinset.card = names.dedup.length := List.card_toFinset names
  have h5 : List.Sublist names.dedup names := List.dedup_sublist names
  have h6 : names.dedup.length ≤ names.length := h5.length_le
  have h7 : names.dedup.length ≠ names.length := by
    intro he
    exact hdup (h5.eq_of_length he ▸ List.nodup_dedup names)
  omega

/-- C10: for a list manifest, every entry's destination name is the final
path component (basename) of the entry; consequently, when two entries
share a basename, both are copied to the same destination, the later copy
silently overwrites the earlier one (the destination ends up holding the
later entry's content), and the run still succeeds with strictly fewer
copied files in the context than entries in the manifest. -/
theorem C10_list_basenames (paths : List String) (ws : PyPath)
    (outName service image : String) (fs : FS)
    (hex : ∀ p ∈ paths, (fsLookup fs (resolveUnder ws (parsePath p))).isSome = true)
    (i j : Nat) (hij : i < j) (hj : j < paths.length)
    (hdup : pathName (parsePath (paths.get ⟨i, Nat.lt_trans hij hj⟩)) =
            pathName (parsePath (paths.get ⟨j, hj⟩)))
    (hlast : ∀ (k : Nat) (hk : k < paths.length), j < k →
      ¬ pathName (parsePath (paths.get ⟨k, hk⟩)) =
        pathName (parsePath (paths.get ⟨j, hj⟩))) :
    normalize_entries (Json.arr (paths.map Json.str)) =
      Except.ok (paths.map (fun p => (pathName (parsePath p), parsePath p))) ∧
    ∃ ctxF,
      packMain (Json.arr (paths.map Json.str)) ws outName service image fs =
        { ctx := some (ctxPut ctxF "Dockerfile" CtxEntry.dockerfile),
          compose := some { service := service, image := image, context := outName },
          err := none } ∧
      ctxLookup ctxF (pathName (parsePath (paths.get ⟨j, hj⟩))) =
        (fsLookup fs (resolveUnder ws (parsePath (paths.get ⟨j, hj⟩)))).map CtxEntry.file ∧
      ctxF.length < paths.length := by
  set entries := paths.map (fun p => (pathName (parsePath p), parsePath p)) with hentries
  have hlenE : entries.length = paths.length := by rw [hentries, List.length_map]
  have hexE : ∀ e ∈ entries, (fsLookup fs (resolveUnder ws e.2)).isSome = true := by
    intro e he
    rw [hentries, List.mem_map] at he
    obtain ⟨p, hp, hpe⟩ := he
    rw [← hpe]
    exact hex p hp
  set ctxF := (copyLoop ws fs entries []).1 with hctxF
  have hsnd : (copyLoop ws fs entries []).2 = none := copyLoop_all_exist ws fs entries [] hexE
  have hcl : copyLoop ws fs entries [] = (ctxF, none) := by
    rw [hctxF, ← hsnd]
  refine ⟨normalize_arr paths, ctxF, ?_, ?_, ?_⟩
  · unfold packMain
    rw [normalize_arr paths]
    show packAfterCopy (prepare_build_context entries ws fs) outName service image = _
    unfold prepare_build_context
    rw [hcl]
    rfl
  · -- the destination holds the content of the later (last) entry
    have hj' : j < entries.length := by rw [hlenE]; exact hj
    have hejv : entries.get ⟨j, hj'⟩ =
        (pathName (parsePath (paths.get ⟨j, hj⟩)), parsePath (paths.get ⟨j, hj⟩)) := by
      simp [hentries]
    have hsplit : entries = entries.take j ++ entries.get ⟨j, hj'⟩ :: entries.drop (j + 1) := by
      have h1 := List.take_append_drop j entries
      have h2 : entries.drop j = entries.get ⟨j, hj'⟩ :: entries.drop (j + 1) := by
        rw [List.get_eq_getElem]
        exact List.drop_eq_getElem_cons hj'
      rw [← h2]
      exact h1.symm
    obtain ⟨cj, hcj⟩ := Option.isSome_iff_exists.mp
      (hexE (entries.get ⟨j, hj'⟩)
        (by rw [List.get_eq_getElem]; exact List.getElem_mem hj'))
    have hpreex : ∀ e ∈ entries.take j, (fsLookup fs (resolveUnder ws e.2)).isSome = true :=
      fun e he => hexE e (List.take_subset j entries he)
    have happ : copyLoop ws fs entries [] =
        copyLoop ws fs (entries.get ⟨j, hj'⟩ :: entries.drop (j + 1))
          (copyLoop ws fs (entries.take j) []).1 := by
      conv_lhs => rw [hsplit]
      exact copyLoop_append ws fs (entries.take j) _ [] hpreex
    have hcj2 : fsLookup fs (resolveUnder ws (entries.get ⟨j, hj'⟩).2) = some cj := hcj
    have hstep : copyLoop ws fs (entries.get ⟨j, hj'⟩ :: entries.drop (j + 1))
        (copyLoop ws fs (entries.take j) []).1 =
        copyLoop ws fs (entries.drop (j + 1))
          (ctxPut (copyLoop ws fs (entries.take j) []).1 (entries.get ⟨j, hj'⟩).1
            (CtxEntry.file cj)) := by
      have := copyLoop_cons_some ws fs (entries.get ⟨j, hj'⟩).1 (entries.get ⟨j, hj'⟩).2
        (entries.drop (j + 1)) (copyLoop ws fs (entries.take j) []).1 cj hcj2
      simpa using this
    have hnotmem : (entries.get ⟨j, hj'⟩).1 ∉ (entries.drop (j + 1)).map Prod.fst := by
      intro hmem
      rw [List.mem_map] at hmem
      obtain ⟨e, he, hfst⟩ := hmem
      obtain ⟨k, hk, hke⟩ := List.mem_iff_getElem.mp he
      have hklen : j + 1 + k < entries.length := by
        rw [List.length_drop] at hk
        omega
      have hkp : j + 1 + k < paths.length := by rw [← hlenE]; exact hklen
      have hke2 : e = entries.get ⟨j + 1 + k, hklen⟩ := by
        rw [← hke, List.get_eq_getElem, List.getElem_drop]
      have hnamek : (entries.get ⟨j + 1 + k, hklen⟩).1 =
          pathName (parsePath (paths.get ⟨j + 1 + k, hkp⟩)) := by
        simp [hentries]
      rw [hke2, hnamek, hejv] at hfst
      exact hlast (j + 1 + k) hkp (by omega) hfst
    have hlook : ctxLookup ctxF (entries.get ⟨j, hj'⟩).1 = some (CtxEntry.file cj) := by
      rw [hctxF, happ, hstep]
      rw [copyLoop_lookup_of_not_mem ws fs (entries.drop (j + 1)) _ _ hnotmem]
      exact ctxLookup_ctxPut_self _ _ _
    rw [hejv] at hlook hcj2
    simp only at hlook hcj2
    rw [hlook, hcj2]
    rfl
  · -- strictly fewer copied files than manifest entries
    have hnd : (ctxKeys ctxF).Nodup :=
      copyLoop_keys_nodup ws fs entries [] (by simp [ctxKeys])
    have hsub : ∀ m ∈ ctxKeys ctxF, m ∈ entries.map Prod.fst := by
      intro m hm
      rcases copyLoop_keys_subset ws fs entries [] m hm with hin | hin
      · exact absurd hin (by simp [ctxKeys])
      · exact hin
    have hnamesdup : ¬ (entries.map Prod.fst).Nodup := by
      intro hndn
      have hi' : i < entries.length := by rw [hlenE]; omega
      have hj2 : j < entries.length := by rw [hlenE]; exact hj
      have hi3 : i < (entries.map Prod.fst).length := by rw [List.length_map]; exact hi'
      have hj3 : j < (entries.map Prod.fst).length := by rw [List.length_map]; exact hj2
      have hvi : (entries.map Prod.fst).get ⟨i, hi3⟩ =
          pathName (parsePath (paths.get ⟨i, Nat.lt_trans hij hj⟩)) := by
        simp [hentries]
      have hvj : (entries.map Prod.fst).get ⟨j, hj3⟩ =
          pathName (parsePath (paths.get ⟨j, hj⟩)) := by
        simp [hentries]
      have heq : (entries.map Prod.fst).get ⟨i, hi3⟩ = (entries.map Prod.fst).get ⟨j, hj3⟩ := by
        rw [hvi, hvj]
        exact hdup
      rw [List.get_eq_getElem, List.get_eq_getElem] at heq
      have hinj := (List.Nodup.getElem_inj_iff hndn).mp heq
      simp at hinj
      omega
    have hklen : (ctxKeys ctxF).length = ctxF.length := by
      rw [ctxKeys, List.length_map]
    have hnlen : (entries.map Prod.fst).length = paths.length := by
      rw [List.length_map, hlenE]
    have := keys_lt_of_dup (ctxKeys ctxF) (entries.map Prod.fst) hnd hsub hnamesdup
    omega

/-- Witness for C10: the manifest ["bins/x.bin", "other/x.bin", "y.bin"],
whose first two entries share the basename x.bin. -/
theorem C10_list_basenames_witness :
    (∀ p ∈ ["bins/x.bin", "other/x.bin", "y.bin"],
      (fsLookup [(resolveUnder (parsePath "/w") (parsePath "bins/x.bin"), 1),
                 (resolveUnder (parsePath "/w") (parsePath "other/x.bin"), 2),
                 (resolveUnder (parsePath "/w") (parsePath "y.bin"), 3)]
        (resolveUnder (parsePath "/w") (parsePath p))).isSome = true) ∧
    normalize_entries (Json.arr (["bins/x.bin", "other/x.bin", "y.bin"].map Json.str)) =
      Except.ok (["bins/x.bin", "other/x.bin", "y.bin"].map
        (fun p => (pathName (parsePath p), parsePath p))) ∧
    ∃ ctxF,
      packMain (Json.arr (["bins/x.bin", "other/x.bin", "y.bin"].map Json.str))
          (parsePath "/w") "docker_build2" "binaries" "ctf-binaries:latest"
          [(resolveUnder (parsePath "/w") (parsePath "bins/x.bin"), 1),
           (resolveUnder (parsePath "/w") (parsePath "other/x.bin"), 2),
           (resolveUnder (parsePath "/w") (parsePath "y.bin"), 3)] =
        { ctx := some (ctxPut ctxF "Dockerfile" CtxEntry.dockerfile),
          compose := some { service := "binaries", image := "ctf-binaries:latest",
                            context := "docker_build2" },
          err := none } ∧
      ctxLookup ctxF (pathName (parsePath
          (["bins/x.bin", "other/x.bin", "y.bin"].get ⟨1, by decide⟩))) =
        (fsLookup [(resolveUnder (parsePath "/w") (parsePath "bins/x.bin"), 1),
                   (resolveUnder (parsePath "/w") (parsePath "other/x.bin"), 2),
                   (resolveUnder (parsePath "/w") (parsePath "y.bin"), 3)]
          (resolveUnder (parsePath "/w") (parsePath
            (["bins/x.bin", "other/x.bin", "y.bin"].get ⟨1, by decide⟩)))).map
          CtxEntry.file ∧
      ctxF.length < (["bins/x.bin", "other/x.bin", "y.bin"] : List String).length := by
  have hex : ∀ p ∈ ["bins/x.bin", "other/x.bin", "y.bin"],
      (fsLookup [(resolveUnder (parsePath "/w") (parsePath "bins/x.bin"), 1),
                 (resolveUnder (parsePath "/w") (parsePath "other/x.bin"), 2),
                 (resolveUnder (parsePath "/w") (parsePath "y.bin"), 3)]
        (resolveUnder (parsePath "/w") (parsePath p))).isSome = true := by
    intro p hp
    fin_cases hp <;> rfl
  refine ⟨hex, ?_⟩
  refine C10_list_basenames ["bins/x.bin", "other/x.bin", "y.bin"] (parsePath "/w")
    "docker_build2" "binaries" "ctf-binaries:latest" _ hex 0 1 (by decide) (by decide)
    rfl ?_
  intro k hk hk1
  have hk2 : k = 2 := by
    have hk9 := hk
    simp only [List.length_cons, List.length_nil] at hk9
    omega
  subst hk2
  have h1 : (["bins/x.bin", "other/x.bin", "y.bin"] : List String).get ⟨2, hk⟩ = "y.bin" :=
    rfl
  rw [h1]
  decide

end CtfGen
